import Mathlib

/-!
Verification of the lambdapp preprocessor (`lambda.c`) against its specification.

The development shallowly embeds the C program: the source buffer is a
`List Char`, byte offsets are `Nat`, the NUL terminator that `lambda.c`
appends to the buffer is modelled by `charNul` returning `'\x00'` out of
range, and the recursive scanner `parse` is translated function by function
(`parse_word`, the main loop, the mark/prototype bookkeeping, the generator).
The C scanner's `while` loop and mutual recursion are driven by an explicit
fuel counter; fuel exhaustion is a distinguished error that a sufficiently
large budget (`parseTop`) never reaches on the inputs exercised here.
Places where the C program performs out-of-bounds pointer arithmetic
(`strchr`/`strstr` returning NULL, `strchr("([{)]}", c)[3]` for a byte that
is not an opening delimiter) are modelled by the distinguished error
`parse_fail.oob`, since the original behaviour is undefined.
-/

/-- Mirror of `lambda_range_t`: a `(begin, length)` view into the buffer. -/
structure lambda_range_t where
  begin : Nat
  length : Nat
deriving DecidableEq, Repr, Inhabited

/-- Mirror of `lambda_position_t`: a prototype insertion point. -/
structure lambda_position_t where
  pos : Nat
  line : Nat
deriving DecidableEq, Repr, Inhabited

/-- Mirror of `lambda_t`: one captured lambda construct. -/
structure lambda_t where
  start : Nat
  type : lambda_range_t
  args : lambda_range_t
  body : lambda_range_t
  type_line : Nat
  body_line : Nat
  end_line : Nat
deriving DecidableEq, Repr, Inhabited

/-- The scanner state threaded through recursion: `source->line` together
with the two tables of `parse_data_t` (`lambdas`, `positions`). -/
structure scan_state where
  line : Nat
  lambdas : List lambda_t
  positions : List lambda_position_t
deriving DecidableEq, Repr, Inhabited

/-- Scan failure. `tooMany` and `mismatch` are the two `parse_error` sites of
`parse`; `oob` marks inputs on which the C code performs undefined
out-of-bounds pointer arithmetic; `fuelOut` is the artifact of the fuel
encoding and is unreachable for a sufficient budget. -/
inductive parse_fail where
  | tooMany (line : Nat)
  | mismatch (line : Nat) (expected seen : Char)
  | oob (line : Nat)
  | fuelOut
deriving DecidableEq, Repr

/-- `isalpha` macro of lambda.c: `(((unsigned)(a)|32)-'a') < 26`. -/
def isalpha (c : Char) : Bool :=
  97 ≤ (c.toNat ||| 32) && (c.toNat ||| 32) < 123

/-- `isdigit` macro of lambda.c. -/
def isdigit (c : Char) : Bool :=
  48 ≤ c.toNat && c.toNat < 58

/-- `isalnum` macro of lambda.c. -/
def isalnum (c : Char) : Bool :=
  isalpha c || isdigit c

/-- `isspace` macro of lambda.c: `((a) >= '\t' && (a) <= '\r') || (a) == ' '`. -/
def isspace (c : Char) : Bool :=
  (9 ≤ c.toNat && c.toNat ≤ 13) || c = ' '

/-- A byte that continues an identifier word: `_` or alphanumeric
(the negation of the scanner's word-boundary test). -/
def is_word_char (c : Char) : Bool :=
  c = '_' || isalnum c

/-- Read the buffer at `k`, returning the NUL terminator that `parse_open`
appends when `k` is out of range (mirrors `source->data[k]`). -/
def charNul (src : List Char) (k : Nat) : Char :=
  src.getD k '\x00'

/-- Worker for `parse_skip_string`; the gas argument only bounds the
recursion and is always supplied large enough to be irrelevant. -/
def skip_string_go (src : List Char) (check : Char) : Nat → Nat → Nat
  | 0, i => i
  | gas + 1, i =>
    if h : i < src.length then
      if src.get ⟨i, h⟩ = check then i + 1
      else if src.get ⟨i, h⟩ = '\\' then
        if i + 1 = src.length then i + 1
        else skip_string_go src check gas (i + 2)
      else skip_string_go src check gas (i + 1)
    else i

/-- Mirror of `parse_skip_string`: skip to just past the closing quote,
handling backslash escapes; stops at end of buffer if unterminated.
Note the C routine does not advance `source->line`. -/
def parse_skip_string (src : List Char) (i : Nat) (check : Char) : Nat :=
  skip_string_go src check (src.length - i) i

/-- Worker for `parse_skip_white`. -/
def skip_white_go (src : List Char) : Nat → Nat → Nat → Nat × Nat
  | 0, i, line => (i, line)
  | gas + 1, i, line =>
    if h : i < src.length then
      if isspace (src.get ⟨i, h⟩) then
        skip_white_go src gas (i + 1)
          (if src.get ⟨i, h⟩ = '\n' then line + 1 else line)
      else (i, line)
    else (i, line)

/-- Mirror of `parse_skip_white`: skip whitespace, counting newlines. -/
def parse_skip_white (src : List Char) (i line : Nat) : Nat × Nat :=
  skip_white_go src (src.length - i) i line

/-- Worker for `parse_skip_to`. -/
def skip_to_go (src : List Char) (check : Char) : Nat → Nat → Nat → Nat × Nat
  | 0, i, line => (i, line)
  | gas + 1, i, line =>
    if h : i < src.length then
      if src.get ⟨i, h⟩ = check then (i, line)
      else
        skip_to_go src check gas (i + 1)
          (if src.get ⟨i, h⟩ = '\n' then line + 1 else line)
    else (i, line)

/-- Mirror of `parse_skip_to`: skip to the next occurrence of `check`,
counting newlines; stops at end of buffer. -/
def parse_skip_to (src : List Char) (i : Nat) (check : Char) (line : Nat) : Nat × Nat :=
  skip_to_go src check (src.length - i) i line

/-- Worker for `strchrIdx`. -/
def strchr_go (src : List Char) (c : Char) : Nat → Nat → Option Nat
  | 0, _ => none
  | gas + 1, i =>
    if h : i < src.length then
      if src.get ⟨i, h⟩ = c then some i else strchr_go src c gas (i + 1)
    else none

/-- Index form of `strchr(source->data + i, c)` on the NUL-terminated
buffer: first occurrence of `c` at or after `i`, `none` when absent. -/
def strchrIdx (src : List Char) (i : Nat) (c : Char) : Option Nat :=
  strchr_go src c (src.length - i) i

/-- Worker for `strstrIdx`. -/
def strstr_go (src : List Char) : Nat → Nat → Option Nat
  | 0, _ => none
  | gas + 1, i =>
    if i + 1 < src.length then
      if charNul src i = '*' ∧ charNul src (i + 1) = '/' then some i
      else strstr_go src gas (i + 1)
    else none

/-- Index form of `strstr(source->data + i, "*/")`: start of the first
comment terminator at or after `i`, `none` when absent. -/
def strstrIdx (src : List Char) (i : Nat) : Option Nat :=
  strstr_go src (src.length - i) i

/-- The test `j != i && strncmp(source->data + j, "lambda", 6) == 0`
performed by `parse_word`: a non-empty just-completed word whose first six
bytes are `lambda`. -/
def strncmp_lambda (src : List Char) (j : Nat) : Bool :=
  charNul src j = 'l' && charNul src (j + 1) = 'a' && charNul src (j + 2) = 'm' &&
  charNul src (j + 3) = 'b' && charNul src (j + 4) = 'd' && charNul src (j + 5) = 'a'

/-- Guard under which `parse_word` recurses into a lambda capture. -/
def lambda_keyword_match (src : List Char) (j i : Nat) : Bool :=
  (j != i) && strncmp_lambda src j

/-- `strchr("([{)]}", c)[3]` of the opening-delimiter branch: the matching
closing delimiter for an opening one; any other byte makes the C code read
past the end of the string literal (undefined), modelled by `none`. -/
def delim_close : Char → Option Char
  | '(' => some ')'
  | '[' => some ']'
  | '{' => some '}'
  | _ => none

/-- The all-zero `lambda_t` produced by `memset` at the top of `parse`. -/
def lambda_zero : lambda_t :=
  { start := 0, type := ⟨0, 0⟩, args := ⟨0, 0⟩, body := ⟨0, 0⟩,
    type_line := 0, body_line := 0, end_line := 0 }

/-- Sequencing of a scan step that may fail: `andThen x f` propagates the
`ERROR` sentinel exactly as the C checks `(i = parse_word(...)) == ERROR` do,
and otherwise continues with the returned offset and state. -/
def andThen (x : Except parse_fail (Nat × scan_state))
    (f : Nat → scan_state → Except parse_fail (Nat × scan_state)) :
    Except parse_fail (Nat × scan_state) :=
  match x with
  | .error e => .error e
  | .ok (a, s) => f a s

@[simp] theorem andThen_error (e : parse_fail)
    (f : Nat → scan_state → Except parse_fail (Nat × scan_state)) :
    andThen (.error e) f = .error e := rfl

@[simp] theorem andThen_ok (a : Nat) (s : scan_state)
    (f : Nat → scan_state → Except parse_fail (Nat × scan_state)) :
    andThen (.ok (a, s)) f = f a s := rfl

/-- One scanner activation: which of the mutually recursive routines of
`parse` is running and its live variables.  The whole recursive nest is
driven by a single fuel-indexed interpreter `scan` so that it is structurally
recursive (and therefore computable by evaluation); the familiar C names are
thin wrappers below. -/
inductive scan_call where
  | parseC (st : scan_state) (i : Nat) (inlambda special : Bool)
  | loopC (inlambda special mark : Bool) (lam : lambda_t) (parens : List Char)
      (protopos : Nat) (protomove preprocessor : Bool) (st : scan_state) (j i : Nat)
  | afterC (inlambda special mark : Bool) (lam : lambda_t) (parens : List Char)
      (protopos : Nat) (protomove preprocessor : Bool) (st : scan_state) (j i : Nat)
  | mainC (inlambda special mark : Bool) (lam : lambda_t) (parens : List Char)
      (protopos : Nat) (protomove preprocessor : Bool) (st : scan_state) (j i : Nat)
  | wordResC (special : Bool) (st : scan_state) (j i : Nat)
  | wordC (st : scan_state) (j i : Nat)

/-- The scanner interpreter.  Each case is the direct translation of the
corresponding piece of `parse`/`parse_word` from lambda.c; see the wrappers
`parse`, `parseLoop`, `parseAfterMove`, `parseMain`, `word_result`,
`parse_word` for the intended reading. -/
def scan (src : List Char) : Nat → scan_call → Except parse_fail (Nat × scan_state)
  | 0, _ => .error .fuelOut
  | fuel + 1, .parseC st i inlambda special =>
    let mark := !inlambda && !special
    if inlambda then
      let start := i - 6
      let w := parse_skip_white src i st.line
      let i1 := w.1
      let st1 : scan_state := { st with line := w.2 }
      let type_begin := i1
      let type_line := st1.line
      andThen (if charNul src i1 = '(' then scan src fuel (.parseC st1 i1 false true)
               else .ok (i1, st1)) (fun i2 st2 =>
        let w2 := parse_skip_to src i2 '(' st2.line
        let i3 := w2.1
        let st3 : scan_state := { st2 with line := w2.2 }
        let type_length := i3 - type_begin
        let args_begin := i3
        andThen (scan src fuel (.parseC st3 i3 false true)) (fun i4 st4 =>
          let args_length := i4 - args_begin + 1
          let w3 := parse_skip_to src i4 '{' st4.line
          let i5 := w3.1
          let st5 : scan_state := { st4 with line := w3.2 }
          let lam : lambda_t :=
            { start := start, type := ⟨type_begin, type_length⟩,
              args := ⟨args_begin, args_length⟩, body := ⟨i5, 0⟩,
              type_line := type_line, body_line := st5.line, end_line := 0 }
          scan src fuel (.loopC inlambda special mark lam [] i true false st5 i5 i5)))
    else
      scan src fuel (.loopC inlambda special mark lambda_zero [] i true false st i i)
  | fuel + 1, .loopC inlambda special mark lam parens protopos protomove preprocessor st j i =>
    if h : i < src.length then
      let c := src.get ⟨i, h⟩
      if mark && parens.isEmpty then
        if protomove then
          if isspace c then
            let st' := if c = '\n' then { st with line := st.line + 1 } else st
            scan src fuel (.loopC inlambda special mark lam parens (i + 1) protomove
              preprocessor st' (i + 1) (i + 1))
          else
            let st' : scan_state :=
              { st with positions := st.positions ++ [⟨protopos, st.line⟩] }
            scan src fuel (.afterC inlambda special mark lam parens protopos false
              preprocessor st' j i)
        else
          scan src fuel (.afterC inlambda special mark lam parens protopos protomove
            preprocessor st j i)
      else
        scan src fuel (.mainC inlambda special mark lam parens protopos protomove
          preprocessor st j i)
    else .ok (i, st)
  | fuel + 1, .afterC inlambda special mark lam parens protopos protomove preprocessor st j i =>
    let c := charNul src i
    if c = ';' then
      andThen (scan src fuel (.wordResC special st j i)) (fun i2 st2 =>
        scan src fuel (.loopC inlambda special mark lam parens (i2 + 1) true
          preprocessor st2 (i2 + 1) (i2 + 1)))
    else if c = '#' then
      andThen (scan src fuel (.wordResC special st j i)) (fun i2 st2 =>
        scan src fuel (.loopC inlambda special mark lam parens (i2 + 1) false
          true st2 (i2 + 1) (i2 + 1)))
    else if preprocessor && c = '\n' then
      andThen (scan src fuel (.wordResC special st j i)) (fun i2 st2 =>
        scan src fuel (.loopC inlambda special mark lam parens (i2 + 1) true
          false st2 (i2 + 1) (i2 + 1)))
    else
      scan src fuel (.mainC inlambda special mark lam parens protopos protomove
        preprocessor st j i)
  | fuel + 1, .mainC inlambda special mark lam parens protopos protomove preprocessor st j i =>
    let c := charNul src i
    if c = '"' || c = '\x27' then
      andThen (scan src fuel (.wordResC special st j i)) (fun i2 st2 =>
        if i2 < src.length then
          let k := parse_skip_string src (i2 + 1) (charNul src i2)
          scan src fuel (.loopC inlambda special mark lam parens protopos protomove
            preprocessor st2 k k)
        else .error (.oob st2.line))
    else if c = '(' || c = '[' || c = '{' then
      andThen (scan src fuel (.wordResC special st j i)) (fun i2 st2 =>
        match delim_close (charNul src i2) with
        | some cl =>
          scan src fuel (.loopC inlambda special mark lam (cl :: parens) protopos
            protomove preprocessor st2 (i2 + 1) (i2 + 1))
        | none => .error (.oob st2.line))
    else if c = ')' || c = ']' || c = '}' then
      if parens.isEmpty then .error (.tooMany st.line)
      else
        let back := parens.headD ' '
        let rest := parens.tail
        if c ≠ back then .error (.mismatch st.line back c)
        else if special && c = ')' && rest.isEmpty then .ok (i, st)
        else if inlambda && c = '}' && rest.isEmpty then
          let lam' : lambda_t :=
            { lam with body := ⟨lam.body.begin, i - lam.body.begin⟩,
                       end_line := st.line }
          .ok (i, { st with lambdas := st.lambdas ++ [lam'] })
        else
          let domark := mark && rest.isEmpty && c = '}'
          andThen (scan src fuel (.wordResC special st j i)) (fun i2 st2 =>
            if domark then
              scan src fuel (.loopC inlambda special mark lam rest (i2 + 1) true
                preprocessor st2 (i2 + 1) (i2 + 1))
            else
              scan src fuel (.loopC inlambda special mark lam rest protopos protomove
                preprocessor st2 (i2 + 1) (i2 + 1)))
    else if !(is_word_char c) then
      andThen (scan src fuel (.wordResC special st j i)) (fun i2 st2 =>
        scan src fuel (.loopC inlambda special mark lam parens protopos protomove
          preprocessor st2 (i2 + 1) (i2 + 1)))
    else
      scan src fuel (.loopC inlambda special mark lam parens protopos protomove
        preprocessor st j (i + 1))
  | fuel + 1, .wordResC special st j i =>
    if special then .ok (i, st) else scan src fuel (.wordC st j i)
  | fuel + 1, .wordC st j i =>
    if lambda_keyword_match src j i then scan src fuel (.parseC st i true false)
    else if charNul src i = '\n' then .ok (i, { st with line := st.line + 1 })
    else if charNul src i = '/' ∧ charNul src (i + 1) = '/' then
      match strchrIdx src i '\n' with
      | some k => .ok (k, st)
      | none => .error (.oob st.line)
    else if charNul src i = '/' ∧ charNul src (i + 1) = '*' then
      match strstrIdx src i with
      | some k => .ok (k, st)
      | none => .error (.oob st.line)
    else .ok (i, st)

/-- Mirror of `parse(source, data, i, inlambda, special)`: the `inlambda`
prologue capturing type/args/body starts, then the scanning loop. -/
def parse (fuel : Nat) (src : List Char) (st : scan_state) (i : Nat)
    (inlambda special : Bool) : Except parse_fail (Nat × scan_state) :=
  scan src fuel (.parseC st i inlambda special)

/-- One iteration of the scanning `while` loop of `parse`: bounds check,
then the `mark`-mode prototype-position bookkeeping, then the main
character dispatch. -/
def parseLoop (fuel : Nat) (src : List Char) (inlambda special mark : Bool)
    (lam : lambda_t) (parens : List Char) (protopos : Nat)
    (protomove preprocessor : Bool) (st : scan_state) (j i : Nat) :
    Except parse_fail (Nat × scan_state) :=
  scan src fuel (.loopC inlambda special mark lam parens protopos protomove
    preprocessor st j i)

/-- The `;` / `#` / preprocessor-newline checks of the `mark` section
(reached with the prototype candidate no longer moving), falling through to
the main character dispatch. -/
def parseAfterMove (fuel : Nat) (src : List Char) (inlambda special mark : Bool)
    (lam : lambda_t) (parens : List Char) (protopos : Nat)
    (protomove preprocessor : Bool) (st : scan_state) (j i : Nat) :
    Except parse_fail (Nat × scan_state) :=
  scan src fuel (.afterC inlambda special mark lam parens protopos protomove
    preprocessor st j i)

/-- The main character dispatch of the scanning loop: string/char literals,
opening and closing delimiters, word-boundary resolution, word bytes. -/
def parseMain (fuel : Nat) (src : List Char) (inlambda special mark : Bool)
    (lam : lambda_t) (parens : List Char) (protopos : Nat)
    (protomove preprocessor : Bool) (st : scan_state) (j i : Nat) :
    Except parse_fail (Nat × scan_state) :=
  scan src fuel (.mainC inlambda special mark lam parens protopos protomove
    preprocessor st j i)

/-- The scan-step expression `special ? i : parse_word(source, data, j, i)`
occurring throughout the loop: in `special` mode the word is never resolved
and the position is returned unchanged. -/
def word_result (fuel : Nat) (src : List Char) (special : Bool)
    (st : scan_state) (j i : Nat) : Except parse_fail (Nat × scan_state) :=
  scan src fuel (.wordResC special st j i)

/-- Mirror of `parse_word`: resolve the just-completed word `src[j..i)`.
A word whose first six bytes are `lambda` starts a lambda capture; otherwise
newlines are counted and `//` and `/* ... */` comments are skipped (the C
code computes `strchr`/`strstr` minus the buffer base, undefined when the
terminator is missing — modelled by `oob`). -/
def parse_word (fuel : Nat) (src : List Char) (st : scan_state) (j i : Nat) :
    Except parse_fail (Nat × scan_state) :=
  scan src fuel (.wordC st j i)

/-- The initial scanner state of `generate`: line 1, both tables empty. -/
def scan_init : scan_state := ⟨1, [], []⟩

/-- The whole-file scan performed by `generate`:
`parse(source, &data, 0, false, false)` with a fuel budget amply covering
the scanner's worst case (each byte is visited a bounded number of times). -/
def parseTop (src : List Char) : Except parse_fail (Nat × scan_state) :=
  parse (64 * (src.length + 2)) src scan_init 0 false false
/-- `fwrite(source + pos, len, 1, out)`: the `len` bytes at offset `pos`. -/
def src_slice (src : List Char) (pos len : Nat) : List Char :=
  (src.drop pos).take len

/-- Decimal rendering of a `%zu` argument. -/
def natChars (n : Nat) : List Char :=
  (Nat.repr n).data

/-- Mirror of `generate_marker`: `# <line> "<file>"\n`. -/
def generate_marker (file : List Char) (line : Nat) : List Char :=
  "# ".data ++ natChars line ++ " \"".data ++ file ++ "\"\n".data

/-- Mirror of `generate_begin`: `\n#line <type_line>\nstatic <type> lambda_<idx><args>`. -/
def generate_begin (src : List Char) (ls : List lambda_t) (idx : Nat) : List Char :=
  let l := ls.getD idx default
  "\n#line ".data ++ natChars l.type_line ++ "\nstatic ".data ++
  src_slice src l.type.begin l.type.length ++ " lambda_".data ++ natChars idx ++
  src_slice src l.args.begin l.args.length

/-- The `for (++lam; lam != elements && funcs[lam].start < pos; ++lam);`
advance past lambdas nested inside the span just consumed (called with the
already incremented index). -/
def skipNested (ls : List lambda_t) (k pos : Nat) : Nat :=
  if h : k < ls.length then
    if (ls.get ⟨k, h⟩).start < pos then skipNested ls (k + 1) pos else k
  else k
termination_by ls.length - k

theorem skipNested_ge_aux (ls : List lambda_t) (pos : Nat) :
    ∀ d k, ls.length ≤ k + d → k ≤ skipNested ls k pos := by
  intro d
  induction d with
  | zero =>
    intro k hk
    unfold skipNested
    split
    · omega
    · exact le_refl k
  | succ d ih =>
    intro k hk
    unfold skipNested
    split
    · split
      · exact le_trans (Nat.le_succ k) (ih (k + 1) (by omega))
      · exact le_refl k
    · exact le_refl k

theorem skipNested_ge (ls : List lambda_t) (k pos : Nat) : k ≤ skipNested ls k pos :=
  skipNested_ge_aux ls pos ls.length k (by omega)

theorem skipNested_measure (ls : List lambda_t) (lam x : Nat) (h : lam < ls.length) :
    ls.length - skipNested ls (lam + 1) x < ls.length - lam := by
  have := skipNested_ge ls (lam + 1) x
  omega

/-- Mirror of `generate_sliced`: emit a span of the source, replacing each
reachable lambda construct by the statement expression
` ({<type> lambda_<i><args>; &lambda_<i>; })` and skipping nested entries. -/
def generate_sliced (src : List Char) (pos len : Nat) (ls : List lambda_t)
    (lam : Nat) : List Char :=
  if len = 0 then []
  else if h : lam < ls.length then
    if (ls.get ⟨lam, h⟩).start > pos + len then src_slice src pos len
    else
      let l := ls.get ⟨lam, h⟩
      let consumed := l.body.begin + l.body.length + 1 - pos
      src_slice src pos (l.start - pos) ++ " (\x7b".data ++
      src_slice src l.type.begin l.type.length ++ " lambda_".data ++ natChars lam ++
      src_slice src l.args.begin l.args.length ++ "; &lambda_".data ++ natChars lam ++
      "; \x7d)".data ++
      generate_sliced src (pos + consumed) (len - consumed) ls
        (skipNested ls (lam + 1) (pos + consumed))
  else src_slice src pos len
termination_by ls.length - lam
decreasing_by
  exact skipNested_measure ls lam _ (by assumption)

/-- Mirror of `next_prototype_position`'s scan loop over the position table. -/
def npp_loop (ps : List lambda_position_t) (start : Nat) (proto : Nat) : Nat :=
  if h : proto < ps.length then
    if (ps.get ⟨proto, h⟩).pos > start then proto - 1
    else npp_loop ps start (proto + 1)
  else ps.length - 1
termination_by ps.length - proto

/-- Mirror of `next_prototype_position`: index of the position entry whose
span contains the next unemitted lambda's `start` (the table count when no
lambda remains).  For `lam` beyond the table the C code would index out of
bounds; that argument never occurs. -/
def next_prototype_position (ls : List lambda_t) (ps : List lambda_position_t)
    (lam proto : Nat) : Nat :=
  if h : lam < ls.length then npp_loop ps (ls.get ⟨lam, h⟩).start proto
  else ps.length

/-- The `end` bound of `generate_prototypes`: `(size_t)-1` (no bound) for
the last position entry, otherwise the next entry's offset.  A `proto`
beyond the table would be an out-of-bounds read in C; modelled as no bound. -/
def proto_stop (ps : List lambda_position_t) (proto : Nat) : Option Nat :=
  if proto + 1 = ps.length then none
  else if h : proto + 1 < ps.length then some (ps.get ⟨proto + 1, h⟩).pos
  else none

/-- `funcs[lam].start > end` against the optional bound. -/
def past_stop (stop : Option Nat) (s : Nat) : Bool :=
  match stop with
  | none => false
  | some e => e < s

/-- The prototype-emission loop of `generate_prototypes`. -/
def protos_from (src : List Char) (ls : List lambda_t) (stop : Option Nat)
    (lam : Nat) : List Char :=
  if h : lam < ls.length then
    if past_stop stop (ls.get ⟨lam, h⟩).start then []
    else generate_begin src ls lam ++ [';'] ++ protos_from src ls stop (lam + 1)
  else []
termination_by ls.length - lam

/-- Mirror of `generate_prototypes`: forward declarations for every lambda
from `lam` up to the next insertion boundary, then a newline. -/
def generate_prototypes (src : List Char) (ls : List lambda_t)
    (ps : List lambda_position_t) (lam proto : Nat) : List Char :=
  protos_from src ls (proto_stop ps proto) lam ++ ['\n']

/-- The prototype-insertion step at the head of a `generate_code` iteration:
when the current position entry falls inside the remaining span, the chunk
to emit (source up to the boundary, the prototypes, a `#line` marker) and
the advanced cursor. -/
def gc_insert (src : List Char) (ls : List lambda_t) (ps : List lambda_position_t)
    (pos len lam proto : Nat) : List Char × Nat × Nat :=
  if h : proto < ps.length then
    let lp := ps.get ⟨proto, h⟩
    if pos < lp.pos && lp.pos ≤ pos + len then
      (src_slice src pos (lp.pos - pos) ++ generate_prototypes src ls ps lam proto ++
        "\n#line ".data ++ natChars lp.line ++ ['\n'],
       lp.pos, len - (lp.pos - pos))
    else ([], pos, len)
  else ([], pos, len)

/-- The `while` loop of `generate_code`. -/
def gc_loop (src : List Char) (ls : List lambda_t) (ps : List lambda_position_t)
    (pos len lam proto : Nat) : List Char :=
  if len = 0 then []
  else if h : lam < ls.length then
    if (ls.get ⟨lam, h⟩).start > pos + len then src_slice src pos len
    else
      let ins := gc_insert src ls ps pos len lam proto
      let pos1 := ins.2.1
      let len1 := ins.2.2
      let l := ls.get ⟨lam, h⟩
      let consumed := l.body.begin + l.body.length + 1 - pos1
      let lam' := skipNested ls (lam + 1) (pos1 + consumed)
      ins.1 ++ src_slice src pos1 (l.start - pos1) ++ "&lambda_".data ++ natChars lam ++
      gc_loop src ls ps (pos1 + consumed) (len1 - consumed) lam'
        (next_prototype_position ls ps lam' proto)
  else src_slice src pos len
termination_by ls.length - lam
decreasing_by
  exact skipNested_measure ls lam _ (by assumption)

/-- Mirror of `generate_code`: top-level emission with prototype insertion
and replacement of each top-level lambda construct by `&lambda_<index>`. -/
def generate_code (src : List Char) (ls : List lambda_t)
    (ps : List lambda_position_t) (pos len lam : Nat) : List Char :=
  gc_loop src ls ps pos len lam (next_prototype_position ls ps lam 1)

/-- The hoisted-function emission loop at the end of `generate`: for each
lambda, its signature via `generate_begin`, a `#line` marker for the body
line, and the body (braces included) emitted via `generate_sliced`. -/
def generate_hoisted (src : List Char) (ls : List lambda_t) (i : Nat) : List Char :=
  if h : i < ls.length then
    generate_begin src ls i ++ "\n#line ".data ++
    natChars (ls.get ⟨i, h⟩).body_line ++ ['\n'] ++
    generate_sliced src (ls.get ⟨i, h⟩).body.begin ((ls.get ⟨i, h⟩).body.length + 1)
      ls (i + 1) ++
    generate_hoisted src ls (i + 1)
  else []
termination_by ls.length - i

/-- Everything `generate` writes after a successful scan, given the already
sorted tables: initial line marker, rewritten top-level code, hoisted
functions, final guaranteed newline. -/
def generate_output (file src : List Char) (ls : List lambda_t)
    (ps : List lambda_position_t) : List Char :=
  generate_marker file 1 ++ generate_code src ls ps 0 src.length 0 ++
  generate_hoisted src ls 0 ++ ['\n']

/-- Insertion into a list sorted ascending by `start` (the `qsort` on the
lambda table uses the comparator `a->start - b->start`; keys are distinct on
scanner output, so any ascending sort produces the same table). -/
def insert_lambda (l : lambda_t) : List lambda_t → List lambda_t
  | [] => [l]
  | x :: xs => if l.start ≤ x.start then l :: x :: xs else x :: insert_lambda l xs

/-- Ascending sort of the lambda table by `start`. -/
def sort_lambdas : List lambda_t → List lambda_t
  | [] => []
  | x :: xs => insert_lambda x (sort_lambdas xs)

/-- Insertion into a list sorted ascending by `pos` (the `qsort` on the
position table; keys are strictly increasing on scanner output). -/
def insert_position (p : lambda_position_t) :
    List lambda_position_t → List lambda_position_t
  | [] => [p]
  | x :: xs => if p.pos ≤ x.pos then p :: x :: xs else x :: insert_position p xs

/-- Ascending sort of the position table by `pos`. -/
def sort_positions : List lambda_position_t → List lambda_position_t
  | [] => []
  | x :: xs => insert_position x (sort_positions xs)

/-- The one diagnostic `parse_error` prints for each of the two fatal scan
errors: its line and message text (the mismatch message quotes both
delimiters, as `mismatching `X' and `Y'`).  `none` for outcomes that are not
a diagnosed parse error (undefined behaviour, fuel artifact). -/
def parse_fail_diag : parse_fail → Option (Nat × List Char)
  | .tooMany ln => some (ln, "too many closing parenthesis".data)
  | .mismatch ln e s =>
    some (ln, "mismatching ".data ++ ['\x60', e, '\x27'] ++ " and ".data ++
              ['\x60', s, '\x27'])
  | _ => none

/-- The stderr line `fprintf(stderr, "%s:%zu error: %s\n", ...)` of
`parse_error`. -/
def diag_line (file : List Char) (ln : Nat) (msg : List Char) : List Char :=
  file ++ [':'] ++ natChars ln ++ " error: ".data ++ msg ++ ['\n']

/-- End-to-end behaviour of `main` on an opened file: stdout bytes, stderr
diagnostic lines, exit code.  On a successful scan, `generate` sorts both
tables and emits; on a diagnosed parse error it emits nothing and `main`
still returns 0.  `none` for the outcomes whose C behaviour is undefined
(modelled `oob`) or for fuel exhaustion. -/
def lambdapp_run (file src : List Char) :
    Option (List Char × List (List Char) × Nat) :=
  match parseTop src with
  | .ok (_, st) =>
    some (generate_output file src (sort_lambdas st.lambdas)
            (sort_positions st.positions), [], 0)
  | .error e =>
    match parse_fail_diag e with
    | some (ln, msg) => some ([], [diag_line file ln msg], 0)
    | none => none

/-- Strictly increasing `pos` entries (the PositionTable ordering invariant). -/
def positions_strict (l : List lambda_position_t) : Prop :=
  l.Pairwise (fun a b => a.pos < b.pos)

/-- Spec-side description of top-level emission, following the specification's
words: walk the sorted lambda table; for each lambda whose `start` falls in
the remaining span emit the source text up to `start`, then the reference
expression `&lambda_<index>` in place of the entire construct (from the
keyword through the byte after the closing body brace), resume the cursor
just past the construct, and skip table entries whose `start` lies inside the
consumed span (nested lambdas, handled when their parent body is emitted).
No prototype insertion is performed. -/
def spec_toplevel_rewrite (src : List Char) (ls : List lambda_t)
    (pos len lam : Nat) : List Char :=
  if len = 0 then []
  else if h : lam < ls.length then
    if (ls.get ⟨lam, h⟩).start > pos + len then src_slice src pos len
    else
      let l := ls.get ⟨lam, h⟩
      let consumed := l.body.begin + l.body.length + 1 - pos
      src_slice src pos (l.start - pos) ++ "&lambda_".data ++ natChars lam ++
      spec_toplevel_rewrite src ls (pos + consumed) (len - consumed)
        (skipNested ls (lam + 1) (pos + consumed))
  else src_slice src pos len
termination_by ls.length - lam
decreasing_by
  exact skipNested_measure ls lam _ (by assumption)

theorem skip_string_go_ge (src : List Char) (check : Char) :
    ∀ gas i, i ≤ skip_string_go src check gas i := by
  intro gas
  induction gas with
  | zero => intro i; simp [skip_string_go]
  | succ gas ih =>
    intro i
    simp only [skip_string_go]
    split
    · split
      · omega
      · split
        · split
          · omega
          · exact le_trans (by omega) (ih (i + 2))
        · exact le_trans (by omega) (ih (i + 1))
    · exact le_refl i

theorem parse_skip_string_ge (src : List Char) (i : Nat) (check : Char) :
    i ≤ parse_skip_string src i check :=
  skip_string_go_ge src check _ i

theorem skip_white_go_ge (src : List Char) :
    ∀ gas i line, i ≤ (skip_white_go src gas i line).1 := by
  intro gas
  induction gas with
  | zero => intro i line; simp [skip_white_go]
  | succ gas ih =>
    intro i line
    simp only [skip_white_go]
    split
    · split
      · exact le_trans (by omega) (ih (i + 1) _)
      · exact le_refl i
    · exact le_refl i

theorem parse_skip_white_ge (src : List Char) (i line : Nat) :
    i ≤ (parse_skip_white src i line).1 :=
  skip_white_go_ge src _ i line

theorem skip_to_go_ge (src : List Char) (check : Char) :
    ∀ gas i line, i ≤ (skip_to_go src check gas i line).1 := by
  intro gas
  induction gas with
  | zero => intro i line; simp [skip_to_go]
  | succ gas ih =>
    intro i line
    simp only [skip_to_go]
    split
    · split
      · exact le_refl i
      · exact le_trans (by omega) (ih (i + 1) _)
    · exact le_refl i

theorem parse_skip_to_ge (src : List Char) (i : Nat) (check : Char) (line : Nat) :
    i ≤ (parse_skip_to src i check line).1 :=
  skip_to_go_ge src check _ i line

theorem strchr_go_ge (src : List Char) (c : Char) :
    ∀ gas i k, strchr_go src c gas i = some k → i ≤ k := by
  intro gas
  induction gas with
  | zero => intro i k h; simp [strchr_go] at h
  | succ gas ih =>
    intro i k h
    simp only [strchr_go] at h
    split at h
    · split at h
      · simp only [Option.some.injEq] at h; omega
      · exact le_trans (by omega) (ih (i + 1) k h)
    · simp at h

theorem strchrIdx_ge (src : List Char) (i : Nat) (c : Char) (k : Nat)
    (h : strchrIdx src i c = some k) : i ≤ k :=
  strchr_go_ge src c _ i k h

theorem strstr_go_ge (src : List Char) :
    ∀ gas i k, strstr_go src gas i = some k → i ≤ k := by
  intro gas
  induction gas with
  | zero => intro i k h; simp [strstr_go] at h
  | succ gas ih =>
    intro i k h
    simp only [strstr_go] at h
    split at h
    · split at h
      · simp only [Option.some.injEq] at h; omega
      · exact le_trans (by omega) (ih (i + 1) k h)
    · simp at h

theorem strstrIdx_ge (src : List Char) (i k : Nat)
    (h : strstrIdx src i = some k) : i ≤ k :=
  strstr_go_ge src _ i k h

theorem ok_inj {n m : Nat} {s t : scan_state}
    (h : (Except.ok (n, s) : Except parse_fail (Nat × scan_state)) = .ok (m, t)) :
    n = m ∧ s = t := by
  simp only [Except.ok.injEq, Prod.mk.injEq] at h
  exact h

theorem andThen_ok_elim (x : Except parse_fail (Nat × scan_state))
    (f : Nat → scan_state → Except parse_fail (Nat × scan_state)) (n : Nat)
    (st' : scan_state) (h : andThen x f = .ok (n, st')) :
    ∃ a s, x = .ok (a, s) ∧ f a s = .ok (n, st') := by
  cases x with
  | error e => simp [andThen] at h
  | ok p => exact ⟨p.1, p.2, rfl, by simpa [andThen] using h⟩

theorem packA : ∀ fuel : Nat,
    (∀ src st i inl spec n st', parse fuel src st i inl spec = .ok (n, st') →
      i ≤ n ∧ ((inl || spec) = true → st'.positions = st.positions) ∧
      (inl = false → spec = true → st' = st)) ∧
    (∀ src inl spec mark lam parens pp pm pre st j i n st',
      parseLoop fuel src inl spec mark lam parens pp pm pre st j i = .ok (n, st') →
      i ≤ n ∧ (mark = false → st'.positions = st.positions) ∧
      (inl = false → spec = true → mark = false → st' = st)) ∧
    (∀ src inl spec mark lam parens pp pm pre st j i n st',
      parseAfterMove fuel src inl spec mark lam parens pp pm pre st j i = .ok (n, st') →
      i ≤ n) ∧
    (∀ src inl spec mark lam parens pp pm pre st j i n st',
      parseMain fuel src inl spec mark lam parens pp pm pre st j i = .ok (n, st') →
      i ≤ n ∧ (mark = false → st'.positions = st.positions) ∧
      (inl = false → spec = true → mark = false → st' = st)) ∧
    (∀ src spec st j i n st', word_result fuel src spec st j i = .ok (n, st') →
      i ≤ n ∧ st'.positions = st.positions ∧ (spec = true → st' = st)) ∧
    (∀ src st j i n st', parse_word fuel src st j i = .ok (n, st') →
      i ≤ n ∧ st'.positions = st.positions) := by
  intro fuel
  induction fuel with
  | zero =>
    refine ⟨?_, ?_, ?_, ?_, ?_, ?_⟩
    · intro src st i inl spec n st' h; simp [parse, scan] at h
    · intro src inl spec mark lam parens pp pm pre st j i n st' h; simp [parseLoop, scan] at h
    · intro src inl spec mark lam parens pp pm pre st j i n st' h; simp [parseAfterMove, scan] at h
    · intro src inl spec mark lam parens pp pm pre st j i n st' h; simp [parseMain, scan] at h
    · intro src spec st j i n st' h; simp [word_result, scan] at h
    · intro src st j i n st' h; simp [parse_word, scan] at h
  | succ fuel ih =>
    obtain ⟨ihP, ihL, ihA, ihM, ihWR, ihW⟩ := ih
    refine ⟨?_, ?_, ?_, ?_, ?_, ?_⟩
    · -- parse
      intro src st i inl spec n st' h
      unfold parse scan at h
      split at h
      case isTrue hinl =>
        simp only [] at h
        by_cases hpar : charNul src (parse_skip_white src i st.line).1 = '('
        case pos =>
          rw [if_pos hpar] at h
          obtain ⟨i2, st2, hw, h⟩ := andThen_ok_elim _ _ _ _ h
          obtain ⟨i4, st4, hw2, h⟩ := andThen_ok_elim _ _ _ _ h
          have h1 := ihP _ _ _ _ _ _ _ hw
          have h2 := ihP _ _ _ _ _ _ _ hw2
          have h3 := ihL _ _ _ _ _ _ _ _ _ _ _ _ _ _ h
          have hsw := parse_skip_white_ge src i st.line
          have hst2 : i2 ≤ (parse_skip_to src i2 '(' st2.line).1 := parse_skip_to_ge _ _ _ _
          have hst4 : i4 ≤ (parse_skip_to src i4 '{' st4.line).1 := parse_skip_to_ge _ _ _ _
          refine ⟨by omega, ?_, ?_⟩
          · intro _
            rw [h3.2.1 (by rw [hinl]; rfl)]
            show st4.positions = st.positions
            rw [h2.2.1 (by simp)]
            show st2.positions = st.positions
            rw [h1.2.1 (by simp)]
          · intro hfalse
            rw [hinl] at hfalse
            simp at hfalse
        case neg =>
          rw [if_neg hpar, andThen_ok] at h
          simp only [] at h
          obtain ⟨i4, st4, hw2, h⟩ := andThen_ok_elim _ _ _ _ h
          have h2 := ihP _ _ _ _ _ _ _ hw2
          have h3 := ihL _ _ _ _ _ _ _ _ _ _ _ _ _ _ h
          have hsw := parse_skip_white_ge src i st.line
          have hst4 : i4 ≤ (parse_skip_to src i4 '{' st4.line).1 := parse_skip_to_ge _ _ _ _
          have hst0 : (parse_skip_white src i st.line).1 ≤
              (parse_skip_to src (parse_skip_white src i st.line).1 '('
                ((parse_skip_white src i st.line).2)).1 := parse_skip_to_ge _ _ _ _
          refine ⟨by omega, ?_, ?_⟩
          · intro _
            rw [h3.2.1 (by rw [hinl]; rfl)]
            show st4.positions = st.positions
            rw [h2.2.1 (by simp)]
          · intro hfalse
            rw [hinl] at hfalse
            simp at hfalse
      case isFalse hinl =>
        have h3 := ihL _ _ _ _ _ _ _ _ _ _ _ _ _ _ h
        have hinl' : inl = false := by
          cases inl
          · rfl
          · exact absurd rfl hinl
        refine ⟨h3.1, ?_, ?_⟩
        · intro ho
          rw [hinl'] at ho
          simp at ho
          exact h3.2.1 (by rw [hinl', ho]; rfl)
        · intro _ hsp
          exact h3.2.2 hinl' hsp (by rw [hinl', hsp]; rfl)
    · -- parseLoop
      intro src inl spec mark lam parens pp pm pre st j i n st' h
      unfold parseLoop scan at h
      simp only [] at h
      split at h
      case isTrue hlen =>
        split at h
        case isTrue hmark =>
          split at h
          case isTrue hpm =>
            split at h
            case isTrue hsp =>
              have hrec := ihL _ _ _ _ _ _ _ _ _ _ _ _ _ _ h
              refine ⟨by omega, ?_, ?_⟩
              · intro hm; rw [hm] at hmark; simp at hmark
              · intro _ _ hm; rw [hm] at hmark; simp at hmark
            case isFalse hsp =>
              have hrec := ihA _ _ _ _ _ _ _ _ _ _ _ _ _ _ h
              refine ⟨hrec, ?_, ?_⟩
              · intro hm; rw [hm] at hmark; simp at hmark
              · intro _ _ hm; rw [hm] at hmark; simp at hmark
          case isFalse hpm =>
            have hrec := ihA _ _ _ _ _ _ _ _ _ _ _ _ _ _ h
            refine ⟨hrec, ?_, ?_⟩
            · intro hm; rw [hm] at hmark; simp at hmark
            · intro _ _ hm; rw [hm] at hmark; simp at hmark
        case isFalse hmark =>
          have hrec := ihM _ _ _ _ _ _ _ _ _ _ _ _ _ _ h
          exact ⟨hrec.1, hrec.2.1, hrec.2.2⟩
      case isFalse hlen =>
        obtain ⟨rfl, rfl⟩ := ok_inj h
        exact ⟨le_refl _, fun _ => rfl, fun _ _ _ => rfl⟩
    · -- parseAfterMove
      intro src inl spec mark lam parens pp pm pre st j i n st' h
      unfold parseAfterMove scan at h
      simp only [] at h
      split at h
      · obtain ⟨i2, st2, hw, h⟩ := andThen_ok_elim _ _ _ _ h
        have hword := ihWR _ _ _ _ _ _ _ hw
        have hrec := ihL _ _ _ _ _ _ _ _ _ _ _ _ _ _ h
        omega
      · split at h
        · obtain ⟨i2, st2, hw, h⟩ := andThen_ok_elim _ _ _ _ h
          have hword := ihWR _ _ _ _ _ _ _ hw
          have hrec := ihL _ _ _ _ _ _ _ _ _ _ _ _ _ _ h
          omega
        · split at h
          · obtain ⟨i2, st2, hw, h⟩ := andThen_ok_elim _ _ _ _ h
            have hword := ihWR _ _ _ _ _ _ _ hw
            have hrec := ihL _ _ _ _ _ _ _ _ _ _ _ _ _ _ h
            omega
          · exact (ihM _ _ _ _ _ _ _ _ _ _ _ _ _ _ h).1
    · -- parseMain
      intro src inl spec mark lam parens pp pm pre st j i n st' h
      unfold parseMain scan at h
      simp only [] at h
      split at h
      · -- string or char literal
        obtain ⟨i2, st2, hw, h⟩ := andThen_ok_elim _ _ _ _ h
        have hword := ihWR _ _ _ _ _ _ _ hw
        split at h
        case isTrue hin =>
          have hrec := ihL _ _ _ _ _ _ _ _ _ _ _ _ _ _ h
          have hk : i2 + 1 ≤ parse_skip_string src (i2 + 1) (charNul src i2) :=
            parse_skip_string_ge _ _ _
          refine ⟨by omega, ?_, ?_⟩
          · intro hm
            exact (hrec.2.1 hm).trans hword.2.1
          · intro h1 h2 h3
            rw [hrec.2.2 h1 h2 h3, hword.2.2 h2]
        case isFalse hin => simp at h
      · split at h
        · -- opening delimiter
          obtain ⟨i2, st2, hw, h⟩ := andThen_ok_elim _ _ _ _ h
          have hword := ihWR _ _ _ _ _ _ _ hw
          split at h
          case h_1 cl hcl =>
            have hrec := ihL _ _ _ _ _ _ _ _ _ _ _ _ _ _ h
            refine ⟨by omega, ?_, ?_⟩
            · intro hm
              exact (hrec.2.1 hm).trans hword.2.1
            · intro h1 h2 h3
              rw [hrec.2.2 h1 h2 h3, hword.2.2 h2]
          case h_2 hcl => simp at h
        · split at h
          · -- closing delimiter
            split at h
            · simp at h
            · split at h
              · simp at h
              · split at h
                case isTrue hspecr =>
                  obtain ⟨rfl, rfl⟩ := ok_inj h
                  exact ⟨le_refl _, fun _ => rfl, fun _ _ _ => rfl⟩
                case isFalse hspecr =>
                  split at h
                  case isTrue hinr =>
                    obtain ⟨rfl, rfl⟩ := ok_inj h
                    refine ⟨le_refl _, fun _ => rfl, ?_⟩
                    intro h1 _ _
                    rw [h1] at hinr
                    simp at hinr
                  case isFalse hinr =>
                    obtain ⟨i2, st2, hw, h⟩ := andThen_ok_elim _ _ _ _ h
                    have hword := ihWR _ _ _ _ _ _ _ hw
                    split at h
                    case isTrue hdo =>
                      have hrec := ihL _ _ _ _ _ _ _ _ _ _ _ _ _ _ h
                      refine ⟨by omega, ?_, ?_⟩
                      · intro hm
                        exact (hrec.2.1 hm).trans hword.2.1
                      · intro h1 h2 h3
                        rw [hrec.2.2 h1 h2 h3, hword.2.2 h2]
                    case isFalse hdo =>
                      have hrec := ihL _ _ _ _ _ _ _ _ _ _ _ _ _ _ h
                      refine ⟨by omega, ?_, ?_⟩
                      · intro hm
                        exact (hrec.2.1 hm).trans hword.2.1
                      · intro h1 h2 h3
                        rw [hrec.2.2 h1 h2 h3, hword.2.2 h2]
          · split at h
            · -- word boundary
              obtain ⟨i2, st2, hw, h⟩ := andThen_ok_elim _ _ _ _ h
              have hword := ihWR _ _ _ _ _ _ _ hw
              have hrec := ihL _ _ _ _ _ _ _ _ _ _ _ _ _ _ h
              refine ⟨by omega, ?_, ?_⟩
              · intro hm
                exact (hrec.2.1 hm).trans hword.2.1
              · intro h1 h2 h3
                rw [hrec.2.2 h1 h2 h3, hword.2.2 h2]
            · -- word byte
              have hrec := ihL _ _ _ _ _ _ _ _ _ _ _ _ _ _ h
              exact ⟨by omega, hrec.2.1, hrec.2.2⟩
    · -- word_result
      intro src spec st j i n st' h
      unfold word_result scan at h
      split at h
      case isTrue hsp =>
        obtain ⟨rfl, rfl⟩ := ok_inj h
        exact ⟨le_refl _, rfl, fun _ => rfl⟩
      case isFalse hsp =>
        have hword := ihW _ _ _ _ _ _ h
        exact ⟨hword.1, hword.2, fun hc => absurd hc hsp⟩
    · -- parse_word
      intro src st j i n st' h
      unfold parse_word scan at h
      split at h
      · have hp := ihP _ _ _ _ _ _ _ h
        exact ⟨hp.1, hp.2.1 (by simp)⟩
      · split at h
        · obtain ⟨rfl, rfl⟩ := ok_inj h
          exact ⟨le_refl _, rfl⟩
        · split at h
          · split at h
            case h_1 k hfind =>
              obtain ⟨rfl, rfl⟩ := ok_inj h
              exact ⟨strchrIdx_ge src i '\n' _ hfind, rfl⟩
            case h_2 hfind => simp at h
          · split at h
            · split at h
              case h_1 k hfind =>
                obtain ⟨rfl, rfl⟩ := ok_inj h
                exact ⟨strstrIdx_ge src i _ hfind, rfl⟩
              case h_2 hfind => simp at h
            · obtain ⟨rfl, rfl⟩ := ok_inj h
              exact ⟨le_refl _, rfl⟩

theorem wr_facts (fuel : Nat) (src : List Char) (spec : Bool) (st : scan_state)
    (j i n : Nat) (st' : scan_state) (h : word_result fuel src spec st j i = .ok (n, st')) :
    i ≤ n ∧ st'.positions = st.positions ∧ (spec = true → st' = st) :=
  (packA fuel).2.2.2.2.1 _ _ _ _ _ _ _ h

theorem packB : ∀ fuel : Nat,
    (∀ src inl spec lam parens pp pm pre st j i n st',
      parseLoop fuel src inl spec true lam parens pp pm pre st j i = .ok (n, st') →
      positions_strict st.positions →
      (∀ p ∈ st.positions, p.pos ≤ i) →
      (pm = true → pp = i ∧ ∀ p ∈ st.positions, p.pos < i) →
      (parens ≠ [] → pm = false) →
      positions_strict st'.positions ∧ st.positions <+: st'.positions) ∧
    (∀ src inl spec lam parens pp pre st j i n st',
      parseAfterMove fuel src inl spec true lam parens pp false pre st j i = .ok (n, st') →
      parens.isEmpty = true →
      positions_strict st.positions →
      (∀ p ∈ st.positions, p.pos ≤ i) →
      positions_strict st'.positions ∧ st.positions <+: st'.positions) ∧
    (∀ src inl spec lam parens pp pre st j i n st',
      parseMain fuel src inl spec true lam parens pp false pre st j i = .ok (n, st') →
      positions_strict st.positions →
      (∀ p ∈ st.positions, p.pos ≤ i) →
      positions_strict st'.positions ∧ st.positions <+: st'.positions) := by
  intro fuel
  induction fuel with
  | zero =>
    refine ⟨?_, ?_, ?_⟩
    · intro src inl spec lam parens pp pm pre st j i n st' h
      simp [parseLoop, scan] at h
    · intro src inl spec lam parens pp pre st j i n st' h
      simp [parseAfterMove, scan] at h
    · intro src inl spec lam parens pp pre st j i n st' h
      simp [parseMain, scan] at h
  | succ fuel ih =>
    obtain ⟨ihLB, ihAB, ihMB⟩ := ih
    refine ⟨?_, ?_, ?_⟩
    · -- parseLoop
      intro src inl spec lam parens pp pm pre st j i n st' h hs hb hm3 hp4
      unfold parseLoop scan at h
      simp only [] at h
      split at h
      case isTrue hlen =>
        split at h
        case isTrue hmark =>
          rw [Bool.true_and] at hmark
          have hpnil : parens = [] := by
            cases parens
            · rfl
            · simp at hmark
          split at h
          case isTrue hpm =>
            obtain ⟨hpp, hlt⟩ := hm3 hpm
            split at h
            case isTrue hsp =>
              have hposeq :
                  (if src.get ⟨i, hlen⟩ = '\n' then { st with line := st.line + 1 }
                   else st).positions = st.positions := by
                split <;> rfl
              have hrec := ihLB _ _ _ _ _ _ _ _ _ _ _ _ _ h
                (by rw [show positions_strict
                    (if src.get ⟨i, hlen⟩ = '\n' then { st with line := st.line + 1 }
                     else st).positions = positions_strict st.positions from by rw [hposeq]]
                    exact hs)
                (by rw [hposeq]; exact fun p hp => (hb p hp).trans (Nat.le_succ i))
                (by intro _
                    refine ⟨rfl, ?_⟩
                    rw [hposeq]
                    exact fun p hp => Nat.lt_succ_of_lt (hlt p hp))
                (by intro hne; exact absurd hpnil hne)
              rw [hposeq] at hrec
              exact hrec
            case isFalse hsp =>
              have hsnew : positions_strict (st.positions ++ [⟨pp, st.line⟩]) := by
                unfold positions_strict at hs ⊢
                rw [List.pairwise_append]
                refine ⟨hs, by simp [positions_strict], ?_⟩
                intro a ha b hbmem
                simp at hbmem
                rw [hbmem]
                show a.pos < pp
                rw [hpp]
                exact hlt a ha
              have hpe2 : parens.isEmpty = true := by rw [hpnil]; rfl
              have hrec := ihAB _ _ _ _ _ _ _ _ _ _ _ _ h hpe2 hsnew
                (by intro p hp
                    simp at hp
                    rcases hp with hp | hp
                    · exact hb p hp
                    · rw [hp]; rw [hpp])
              refine ⟨hrec.1, ?_⟩
              exact (List.prefix_append st.positions [⟨pp, st.line⟩]).trans hrec.2
          case isFalse hpm =>
            have hpmf : pm = false := by
              cases pm
              · rfl
              · exact absurd rfl hpm
            rw [hpmf] at h
            have hpe2 : parens.isEmpty = true := by rw [hpnil]; rfl
            exact ihAB _ _ _ _ _ _ _ _ _ _ _ _ h hpe2 hs hb
        case isFalse hmark =>
          rw [Bool.true_and] at hmark
          have hpm : pm = false := by
            apply hp4
            intro hq
            rw [hq] at hmark
            simp at hmark
          rw [hpm] at h
          exact ihMB _ _ _ _ _ _ _ _ _ _ _ _ h hs hb
      case isFalse hlen =>
        obtain ⟨rfl, rfl⟩ := ok_inj h
        exact ⟨hs, List.prefix_refl _⟩
    · -- parseAfterMove
      intro src inl spec lam parens pp pre st j i n st' h hpe hs hb
      have hpnil : parens = [] := by
        cases parens
        · rfl
        · simp at hpe
      unfold parseAfterMove scan at h
      simp only [] at h
      split at h
      · obtain ⟨i2, st2, hw, h⟩ := andThen_ok_elim _ _ _ _ h
        have hword := wr_facts _ _ _ _ _ _ _ _ hw
        have hrec := ihLB _ _ _ _ _ _ _ _ _ _ _ _ _ h
          (by rw [show positions_strict st2.positions = positions_strict st.positions from by
              rw [hword.2.1]]
              exact hs)
          (by rw [hword.2.1]; intro p hp; have := hb p hp; omega)
          (by intro _
              refine ⟨rfl, ?_⟩
              rw [hword.2.1]
              intro p hp
              have := hb p hp
              omega)
          (by intro hne; exact absurd hpnil hne)
        rw [hword.2.1] at hrec
        exact hrec
      · split at h
        · obtain ⟨i2, st2, hw, h⟩ := andThen_ok_elim _ _ _ _ h
          have hword := wr_facts _ _ _ _ _ _ _ _ hw
          have hrec := ihLB _ _ _ _ _ _ _ _ _ _ _ _ _ h
            (by rw [show positions_strict st2.positions = positions_strict st.positions from by
                rw [hword.2.1]]
                exact hs)
            (by rw [hword.2.1]; intro p hp; have := hb p hp; omega)
            (by intro hq; exact absurd hq (by simp))
            (by intro hne; exact absurd hpnil hne)
          rw [hword.2.1] at hrec
          exact hrec
        · split at h
          · obtain ⟨i2, st2, hw, h⟩ := andThen_ok_elim _ _ _ _ h
            have hword := wr_facts _ _ _ _ _ _ _ _ hw
            have hrec := ihLB _ _ _ _ _ _ _ _ _ _ _ _ _ h
              (by rw [show positions_strict st2.positions = positions_strict st.positions from by
                  rw [hword.2.1]]
                  exact hs)
              (by rw [hword.2.1]; intro p hp; have := hb p hp; omega)
              (by intro _
                  refine ⟨rfl, ?_⟩
                  rw [hword.2.1]
                  intro p hp
                  have := hb p hp
                  omega)
              (by intro hne; exact absurd hpnil hne)
            rw [hword.2.1] at hrec
            exact hrec
          · exact ihMB _ _ _ _ _ _ _ _ _ _ _ _ h hs hb
    · -- parseMain
      intro src inl spec lam parens pp pre st j i n st' h hs hb
      unfold parseMain scan at h
      simp only [] at h
      split at h
      · -- string or char literal
        obtain ⟨i2, st2, hw, h⟩ := andThen_ok_elim _ _ _ _ h
        have hword := wr_facts _ _ _ _ _ _ _ _ hw
        split at h
        case isTrue hin =>
          have hk : i2 + 1 ≤ parse_skip_string src (i2 + 1) (charNul src i2) :=
            parse_skip_string_ge _ _ _
          have hrec := ihLB _ _ _ _ _ _ _ _ _ _ _ _ _ h
            (by rw [show positions_strict st2.positions = positions_strict st.positions from by
                rw [hword.2.1]]
                exact hs)
            (by rw [hword.2.1]; intro p hp; have := hb p hp; omega)
            (by intro hq; exact absurd hq (by simp))
            (fun _ => rfl)
          rw [hword.2.1] at hrec
          exact hrec
        case isFalse hin => simp at h
      · split at h
        · -- opening delimiter
          obtain ⟨i2, st2, hw, h⟩ := andThen_ok_elim _ _ _ _ h
          have hword := wr_facts _ _ _ _ _ _ _ _ hw
          split at h
          case h_1 cl hcl =>
            have hrec := ihLB _ _ _ _ _ _ _ _ _ _ _ _ _ h
              (by rw [show positions_strict st2.positions = positions_strict st.positions from by
                  rw [hword.2.1]]
                  exact hs)
              (by rw [hword.2.1]; intro p hp; have := hb p hp; omega)
              (by intro hq; exact absurd hq (by simp))
              (fun _ => rfl)
            rw [hword.2.1] at hrec
            exact hrec
          case h_2 hcl => simp at h
        · split at h
          · -- closing delimiter
            split at h
            · simp at h
            · split at h
              · simp at h
              · split at h
                case isTrue hspecr =>
                  obtain ⟨rfl, rfl⟩ := ok_inj h
                  exact ⟨hs, List.prefix_refl _⟩
                case isFalse hspecr =>
                  split at h
                  case isTrue hinr =>
                    obtain ⟨rfl, rfl⟩ := ok_inj h
                    exact ⟨hs, List.prefix_refl _⟩
                  case isFalse hinr =>
                    obtain ⟨i2, st2, hw, h⟩ := andThen_ok_elim _ _ _ _ h
                    have hword := wr_facts _ _ _ _ _ _ _ _ hw
                    split at h
                    case isTrue hdo =>
                      have hrest : parens.tail = [] := by
                        have h2 := hdo
                        simp at h2
                        exact h2.1
                      have hrec := ihLB _ _ _ _ _ _ _ _ _ _ _ _ _ h
                        (by rw [show positions_strict st2.positions =
                            positions_strict st.positions from by rw [hword.2.1]]
                            exact hs)
                        (by rw [hword.2.1]; intro p hp; have := hb p hp; omega)
                        (by intro _
                            refine ⟨rfl, ?_⟩
                            rw [hword.2.1]
                            intro p hp
                            have := hb p hp
                            omega)
                        (by intro hne; exact absurd hrest hne)
                      rw [hword.2.1] at hrec
                      exact hrec
                    case isFalse hdo =>
                      have hrec := ihLB _ _ _ _ _ _ _ _ _ _ _ _ _ h
                        (by rw [show positions_strict st2.positions =
                            positions_strict st.positions from by rw [hword.2.1]]
                            exact hs)
                        (by rw [hword.2.1]; intro p hp; have := hb p hp; omega)
                        (by intro hq; exact absurd hq (by simp))
                        (fun _ => rfl)
                      rw [hword.2.1] at hrec
                      exact hrec
          · split at h
            · -- word boundary
              obtain ⟨i2, st2, hw, h⟩ := andThen_ok_elim _ _ _ _ h
              have hword := wr_facts _ _ _ _ _ _ _ _ hw
              have hrec := ihLB _ _ _ _ _ _ _ _ _ _ _ _ _ h
                (by rw [show positions_strict st2.positions = positions_strict st.positions from by
                    rw [hword.2.1]]
                    exact hs)
                (by rw [hword.2.1]; intro p hp; have := hb p hp; omega)
                (by intro hq; exact absurd hq (by simp))
                (fun _ => rfl)
              rw [hword.2.1] at hrec
              exact hrec
            · -- word byte
              exact ihLB _ _ _ _ _ _ _ _ _ _ _ _ _ h hs
                (fun p hp => (hb p hp).trans (Nat.le_succ i))
                (by intro hq; exact absurd hq (by simp))
                (fun _ => rfl)

theorem charNul_lt (src : List Char) (k : Nat) (h : k < src.length) :
    charNul src k = src.get ⟨k, h⟩ :=
  List.getD_eq_getElem src '\x00' h

theorem charNul_nul_of_ge (src : List Char) (k : Nat) (h : src.length ≤ k) :
    charNul src k = '\x00' :=
  List.getD_eq_default src '\x00' h

theorem charNul_lt_of_ne (src : List Char) (k : Nat) (h : charNul src k ≠ '\x00') :
    k < src.length := by
  by_contra hk
  exact h (charNul_nul_of_ge src k (by omega))

/-- C8: a special-mode scan records nothing: it either fails or returns with
the scanner state (line, lambda table, position table) exactly as it was. -/
theorem c8_special_scan_preserves_state (fuel : Nat) (src : List Char)
    (st : scan_state) (i : Nat) :
    (∃ e, parse fuel src st i false true = .error e) ∨
    (∃ n, parse fuel src st i false true = .ok (n, st)) := by
  cases hr : parse fuel src st i false true with
  | error e => exact Or.inl ⟨e, rfl⟩
  | ok p =>
    obtain ⟨n, st'⟩ := p
    have h3 := ((packA fuel).1 _ _ _ _ _ _ _ hr).2.2 rfl rfl
    exact Or.inr ⟨n, by rw [h3]⟩

set_option maxRecDepth 100000 in
/-- C2 counterexample: on the input `)` the scan fails with a diagnostic,
yet the program's exit code is 0, not non-zero as the claim requires. -/
theorem c2_counterexample :
    parseTop ")".data = .error (.tooMany 1) ∧
    lambdapp_run "f".data ")".data =
      some ([], [diag_line "f".data 1 "too many closing parenthesis".data], 0) :=
  ⟨rfl, rfl⟩

/-- C2 (amended): on every diagnosed parse failure the program prints exactly
one `<file>:<line> error: <message>` line to the error stream, writes nothing
at all to standard output, and exits with code 0. -/
theorem c2_parse_failure_behaviour (file src : List Char) (e : parse_fail)
    (ln : Nat) (msg : List Char) (he : parseTop src = .error e)
    (hd : parse_fail_diag e = some (ln, msg)) :
    lambdapp_run file src = some ([], [diag_line file ln msg], 0) := by
  simp only [lambdapp_run, he, hd]

set_option maxRecDepth 100000 in
theorem c2_witness :
    parseTop "(]".data = .error (.mismatch 1 ')' ']') ∧
    lambdapp_run "g.c".data "(]".data =
      some ([], [diag_line "g.c".data 1
        ("mismatching ".data ++ ['\x60', ')', '\x27'] ++ " and ".data ++
         ['\x60', ']', '\x27'])], 0) :=
  ⟨rfl, c2_parse_failure_behaviour "g.c".data "(]".data (.mismatch 1 ')' ']') 1 _ rfl rfl⟩

/-- C6: a closing delimiter on an empty stack raises the excess-closing
diagnostic at the current line; a closing delimiter different from the popped
expected one raises the mismatch diagnostic naming both; and a file whose
scan fails produces no standard output at all. -/
theorem c6_delimiter_errors :
    (∀ fuel src (inl spec mark : Bool) (lam : lambda_t) (pp : Nat) (pm pre : Bool)
       (st : scan_state) (j i : Nat),
       (charNul src i = ')' ∨ charNul src i = ']' ∨ charNul src i = '}') →
       parseMain (fuel + 1) src inl spec mark lam [] pp pm pre st j i =
         .error (.tooMany st.line)) ∧
    (∀ fuel src (inl spec mark : Bool) (lam : lambda_t) (back : Char)
       (rest : List Char) (pp : Nat) (pm pre : Bool) (st : scan_state) (j i : Nat),
       (charNul src i = ')' ∨ charNul src i = ']' ∨ charNul src i = '}') →
       charNul src i ≠ back →
       parseMain (fuel + 1) src inl spec mark lam (back :: rest) pp pm pre st j i =
         .error (.mismatch st.line back (charNul src i))) ∧
    (∀ file src e, parseTop src = .error e →
       ∀ r, lambdapp_run file src = some r → r.1 = []) := by
  refine ⟨?_, ?_, ?_⟩
  · intro fuel src inl spec mark lam pp pm pre st j i hc
    unfold parseMain scan
    rcases hc with hc | hc | hc <;> simp [hc]
  · intro fuel src inl spec mark lam back rest pp pm pre st j i hc hne
    unfold parseMain scan
    rcases hc with hc | hc | hc <;> rw [hc] at hne ⊢ <;> simp [hne]
  · intro file src e he r hr
    unfold lambdapp_run at hr
    rw [he] at hr
    simp only [] at hr
    cases hd : parse_fail_diag e with
    | none => rw [hd] at hr; simp at hr
    | some p =>
      obtain ⟨ln, msg⟩ := p
      rw [hd] at hr
      simp only [Option.some.injEq] at hr
      rw [← hr]

theorem c6_witness :
    parseMain 1 ")".data false false true lambda_zero [] 0 true false scan_init 0 0 =
      .error (.tooMany 1) ∧
    parseMain 1 "]".data false false true lambda_zero [')'] 0 true false scan_init 0 0 =
      .error (.mismatch 1 ')' ']') ∧
    (([] : List Char), [diag_line "f".data 1 "too many closing parenthesis".data],
      (0 : Nat)).1 = ([] : List Char) := by
  refine ⟨?_, ?_, ?_⟩
  · exact c6_delimiter_errors.1 0 ")".data false false true lambda_zero 0 true false
      scan_init 0 0 (Or.inl rfl)
  · exact c6_delimiter_errors.2.1 0 "]".data false false true lambda_zero ')' [] 0 true
      false scan_init 0 0 (Or.inr (Or.inl rfl)) (by decide)
  · exact c6_delimiter_errors.2.2 "f".data ")".data (.tooMany 1) rfl _ rfl

theorem gc_loop_nil (src : List Char) (ps : List lambda_position_t)
    (pos len proto : Nat) : gc_loop src [] ps pos len 0 proto = src_slice src pos len := by
  unfold gc_loop
  split
  case isTrue h0 => simp [src_slice, h0]
  case isFalse h0 => rw [dif_neg (by simp)]

theorem generate_code_nil (src : List Char) (ps : List lambda_position_t) :
    generate_code src [] ps 0 src.length 0 = src := by
  unfold generate_code
  rw [gc_loop_nil]
  simp [src_slice]

theorem generate_hoisted_nil (src : List Char) : generate_hoisted src [] 0 = [] := by
  unfold generate_hoisted
  rw [dif_neg (by simp)]

/-- C5: an input whose successful scan captured no lambda construct is passed
through unchanged, preceded by the line marker `# 1 "<file>"` and followed by
one appended newline; nothing goes to the error stream and the exit code
is 0. -/
theorem c5_no_lambda_passthrough (file src : List Char) (n : Nat) (st : scan_state)
    (hok : parseTop src = .ok (n, st)) (hl : st.lambdas = []) :
    lambdapp_run file src =
      some ("# 1 \"".data ++ file ++ "\"\n".data ++ src ++ ['\n'], [], 0) := by
  unfold lambdapp_run
  rw [hok]
  simp only []
  rw [hl]
  show some (generate_output file src (sort_lambdas []) (sort_positions st.positions), [], 0) = _
  have hsl : sort_lambdas [] = [] := rfl
  rw [hsl]
  unfold generate_output
  rw [generate_code_nil, generate_hoisted_nil]
  simp [generate_marker, natChars, List.append_assoc]
  rfl

set_option maxRecDepth 100000 in
theorem c5_witness :
    parseTop "int x;\n".data = .ok (7, ⟨2, [], [⟨0, 1⟩]⟩) ∧
    lambdapp_run "t.c".data "int x;\n".data =
      some ("# 1 \"".data ++ "t.c".data ++ "\"\n".data ++ "int x;\n".data ++ ['\n'],
        [], 0) :=
  ⟨rfl, c5_no_lambda_passthrough "t.c".data "int x;\n".data 7 ⟨2, [], [⟨0, 1⟩]⟩ rfl rfl⟩

/-- C10: when the scanner stands on a string or character literal whose
closing quote never occurs before the end of the buffer (and the preceding
word is not a lambda keyword), the literal skip stops at end of buffer and
the scan returns normally with offset `src.length`, the state untouched and
no diagnostic. -/
theorem c10_unterminated_literal (fuel : Nat) (src : List Char)
    (inl spec mark : Bool) (lam : lambda_t) (parens : List Char) (pp : Nat)
    (pm pre : Bool) (st : scan_state) (j i : Nat) (hi : i < src.length)
    (hq : src.get ⟨i, hi⟩ = '"' ∨ src.get ⟨i, hi⟩ = '\x27')
    (hw : lambda_keyword_match src j i = false)
    (hs : parse_skip_string src (i + 1) (src.get ⟨i, hi⟩) = src.length) :
    parseMain (fuel + 3) src inl spec mark lam parens pp pm pre st j i =
      .ok (src.length, st) := by
  have hcn : charNul src i = src.get ⟨i, hi⟩ := charNul_lt src i hi
  have hwr : word_result (fuel + 2) src spec st j i = .ok (i, st) := by
    unfold word_result scan
    cases spec
    · rw [if_neg (by simp)]
      show scan src (fuel + 1) (.wordC st j i) = _
      unfold scan
      rw [if_neg (by rw [hw]; simp)]
      rcases hq with hq | hq <;> rw [hcn, hq] <;> simp
    · rw [if_pos rfl]
  have hloop : parseLoop (fuel + 2) src inl spec mark lam parens pp pm pre st
      src.length src.length = .ok (src.length, st) := by
    unfold parseLoop scan
    rw [dif_neg (by omega)]
  unfold parseMain scan
  show (if charNul src i = '"' || charNul src i = '\x27' then _ else _) = _
  rw [if_pos (by rcases hq with hq | hq <;> rw [hcn, hq] <;> simp)]
  show andThen (scan src (fuel + 2) (.wordResC spec st j i)) _ = _
  rw [show scan src (fuel + 2) (.wordResC spec st j i) =
        word_result (fuel + 2) src spec st j i from rfl,
      hwr, andThen_ok]
  simp only []
  rw [if_pos hi, hcn, hs]
  exact hloop

theorem c10_witness :
    parseMain 3 "\"abc".data false false true lambda_zero [] 0 false false scan_init 0 0 =
      .ok (("\"abc".data).length, scan_init) :=
  c10_unterminated_literal 0 "\"abc".data false false true lambda_zero [] 0 false false
    scan_init 0 0 (by decide) (Or.inl rfl) rfl rfl

theorem charNul_getElem (src : List Char) (k : Nat) (h : k < src.length) :
    src[k]? = some (charNul src k) := by
  rw [List.getElem?_eq_getElem h]
  rw [charNul_lt src k h]
  rfl

set_option maxRecDepth 200000 in
/-- C3 counterexample: the identifier `lambdas` is not the keyword `lambda`,
yet scanning `lambdas int(int x){}` records one Lambda, because `parse_word`
only compares the first six bytes of the word. -/
theorem c3_counterexample :
    (parseTop "lambdas int(int x)\x7b\x7d".data).toOption.map
      (fun r => r.2.lambdas.length) = some 1 := rfl

/-- C3 (amended): at a word boundary (the byte at `i` is not an identifier
byte) the scanner recurses into a lambda capture iff the just-completed word
`src[j..i)` is non-empty and begins with the six characters `lambda`; any
identifier with that prefix, such as `lambdas`, triggers a capture. -/
theorem c3_lambda_keyword_begins (src : List Char) (j i : Nat) (hji : j ≤ i)
    (hb : is_word_char (charNul src i) = false) :
    lambda_keyword_match src j i = true ↔
      (j < i ∧ "lambda".data <+: src_slice src j (i - j)) := by
  constructor
  · intro h
    unfold lambda_keyword_match strncmp_lambda at h
    simp only [Bool.and_eq_true, bne_iff_ne, ne_eq, decide_eq_true_eq, and_assoc] at h
    obtain ⟨hne, h0, h1, h2, h3, h4, h5⟩ := h
    have hword6 : ∀ k, k < 6 → is_word_char (charNul src (j + k)) = true := by
      intro k hk
      interval_cases k
      · simp only [Nat.add_zero]; rw [h0]; decide
      · rw [h1]; decide
      · rw [h2]; decide
      · rw [h3]; decide
      · rw [h4]; decide
      · rw [h5]; decide
    have hlen : j + 6 ≤ src.length := by
      have := charNul_lt_of_ne src (j + 5) (by rw [h5]; decide)
      omega
    have hge6 : j + 6 ≤ i := by
      by_contra hlt
      have hrw : i = j + (i - j) := by omega
      have hw : is_word_char (charNul src i) = true := by
        rw [hrw]
        exact hword6 (i - j) (by omega)
      rw [hw] at hb
      simp at hb
    refine ⟨by omega, ?_⟩
    rw [List.prefix_iff_eq_take]
    show "lambda".data = List.take 6 (src_slice src j (i - j))
    unfold src_slice
    rw [List.take_take]
    rw [show (6 ⊓ (i - j)) = 6 from by omega]
    apply List.ext_getElem?
    intro n
    rw [List.getElem?_take, List.getElem?_drop]
    by_cases hn : n < 6
    · rw [if_pos hn]
      rw [charNul_getElem src (j + n) (by omega)]
      interval_cases n
      · simp only [Nat.add_zero]; rw [h0]; decide
      · rw [h1]; decide
      · rw [h2]; decide
      · rw [h3]; decide
      · rw [h4]; decide
      · rw [h5]; decide
    · rw [if_neg hn]
      apply List.getElem?_eq_none
      simp
      omega
  · rintro ⟨hji', hpre⟩
    have hlen6 : (6 : Nat) ≤ (src_slice src j (i - j)).length := by
      have := hpre.length_le
      simpa using this
    have hsl : (src_slice src j (i - j)).length = (i - j) ⊓ (src.length - j) := by
      simp [src_slice]
    have hjlen : j + 6 ≤ src.length := by omega
    have hij6 : j + 6 ≤ i := by omega
    have hchar : ∀ k, k < 6 →
        some (charNul src (j + k)) = ("lambda".data)[k]? := by
      intro k hk
      obtain ⟨t, ht⟩ := hpre
      have hk1 : (src_slice src j (i - j))[k]? = ("lambda".data ++ t)[k]? := by rw [ht]
      unfold src_slice at hk1
      rw [List.getElem?_take, List.getElem?_drop, if_pos (by omega),
        List.getElem?_append, if_pos (by simpa using hk)] at hk1
      rw [← hk1]
      exact (charNul_getElem src (j + k) (by omega)).symm
    unfold lambda_keyword_match strncmp_lambda
    simp only [Bool.and_eq_true, bne_iff_ne, ne_eq, decide_eq_true_eq, and_assoc]
    have e0 := hchar 0 (by omega)
    have e1 := hchar 1 (by omega)
    have e2 := hchar 2 (by omega)
    have e3 := hchar 3 (by omega)
    have e4 := hchar 4 (by omega)
    have e5 := hchar 5 (by omega)
    simp only [Nat.add_zero] at e0
    refine ⟨by omega, ?_, ?_, ?_, ?_, ?_, ?_⟩
    · exact Option.some.inj (by rw [e0]; decide)
    · exact Option.some.inj (by rw [e1]; decide)
    · exact Option.some.inj (by rw [e2]; decide)
    · exact Option.some.inj (by rw [e3]; decide)
    · exact Option.some.inj (by rw [e4]; decide)
    · exact Option.some.inj (by rw [e5]; decide)

theorem c3_witness :
    lambda_keyword_match "lambdax(".data 0 7 = true ∧
    (0 : Nat) < 7 ∧ "lambda".data <+: src_slice "lambdax(".data 0 7 := by
  constructor
  · decide
  · exact (c3_lambda_keyword_begins "lambdax(".data 0 7 (by omega) (by decide)).mp
      (by decide)

/-- C7 counterexample: the empty input scans successfully and leaves the
position table empty — there is no entry with `pos` 0. -/
theorem c7_counterexample :
    parseTop ([] : List Char) = .ok (0, ⟨1, [], []⟩) := rfl

theorem parse_top_positions (fuel : Nat) (src : List Char) (n : Nat)
    (st : scan_state) (h : parse fuel src scan_init 0 false false = .ok (n, st)) :
    positions_strict st.positions ∧
    (∀ h0 : 0 < src.length, isspace (src.get ⟨0, h0⟩) = false →
      st.positions.head? = some ⟨0, 1⟩) := by
  cases fuel with
  | zero => simp [parse, scan] at h
  | succ fuel =>
    unfold parse scan at h
    rw [if_neg (by simp)] at h
    simp only [Bool.not_false, Bool.and_self] at h
    constructor
    · exact ((packB fuel).1 _ _ _ _ _ _ _ _ _ _ _ _ _ h List.Pairwise.nil
        (by intro p hp; simp [scan_init] at hp)
        (by intro _; exact ⟨rfl, by intro p hp; simp [scan_init] at hp⟩)
        (by intro hne; exact absurd rfl hne)).1
    · intro h0 hsp
      cases fuel with
      | zero => simp [scan] at h
      | succ fuel =>
        unfold scan at h
        rw [dif_pos h0] at h
        simp only [] at h
        simp only [List.get_eq_getElem] at hsp
        simp [hsp, scan_init] at h
        have hrec := (packB fuel).2.1 _ _ _ _ _ _ _ _ _ _ _ _ h rfl
          (by simp [positions_strict])
          (by intro p hp; simp at hp; rw [hp])
        obtain ⟨t, ht⟩ := hrec.2
        rw [← ht]
        rfl

/-- C7 (amended): after any successful scan the position table is strictly
increasing in `pos`; and when the input's first byte exists and is not
whitespace, the table's first entry is position 0 at line 1.  (The claim's
unconditional pos-0 entry fails: empty or whitespace-led inputs lack it.) -/
theorem c7_positions_strict_increasing (src : List Char) (n : Nat)
    (st : scan_state) (hok : parseTop src = .ok (n, st)) :
    positions_strict st.positions ∧
    (∀ h0 : 0 < src.length, isspace (src.get ⟨0, h0⟩) = false →
      st.positions.head? = some ⟨0, 1⟩) :=
  parse_top_positions _ src n st hok

set_option maxRecDepth 100000 in
theorem c7_witness :
    positions_strict (⟨1, [], [⟨0, 1⟩]⟩ : scan_state).positions ∧
    (⟨1, [], [⟨0, 1⟩]⟩ : scan_state).positions.head? = some ⟨0, 1⟩ := by
  have hc := c7_positions_strict_increasing "x;".data 2 ⟨1, [], [⟨0, 1⟩]⟩ rfl
  exact ⟨hc.1, hc.2 (by decide) (by decide)⟩

/-- C4 counterexample: a special-mode scan of the group `(/*)*/x)` returns at
offset 3 — the `)` inside the comment `/*)*/` — instead of at the group's
real closing parenthesis at offset 7; comments are not inert in special
mode. -/
theorem c4_counterexample :
    parse 64 "(/*)*/x)".data scan_init 0 false true = .ok (3, scan_init) := rfl

/-- C4 (amended): in non-special scans a `//` comment is skipped to the end
of its line and a `/* ... */` comment to its terminator as inert text: the
word-resolution step returns the terminator offset with the scanner state
unchanged (no delimiter processed, no lambda captured), and the dispatch
feeds it back into the loop with the same delimiter stack.  In special mode
comments receive no such treatment (see the counterexample). -/
theorem c4_comments_inert_nonspecial (fuel : Nat) (src : List Char)
    (inl mark : Bool) (lam : lambda_t) (parens : List Char) (pp : Nat)
    (pm pre : Bool) (st : scan_state) (j i k : Nat)
    (hw : lambda_keyword_match src j i = false)
    (hsl : charNul src i = '/') :
    (parseMain (fuel + 3) src inl false mark lam parens pp pm pre st j i =
      andThen (parse_word (fuel + 1) src st j i) (fun i2 st2 =>
        parseLoop (fuel + 2) src inl false mark lam parens pp pm pre st2
          (i2 + 1) (i2 + 1))) ∧
    (charNul src (i + 1) = '/' → strchrIdx src i '\n' = some k →
      parse_word (fuel + 1) src st j i = .ok (k, st)) ∧
    (charNul src (i + 1) = '*' → strstrIdx src i = some k →
      parse_word (fuel + 1) src st j i = .ok (k, st)) := by
  refine ⟨?_, ?_, ?_⟩
  · unfold parseMain scan
    simp only []
    rw [if_neg (by rw [hsl]; decide), if_neg (by rw [hsl]; decide),
      if_neg (by rw [hsl]; decide), if_pos (by rw [hsl]; decide)]
    rfl
  · intro hc2 hfind
    unfold parse_word scan
    rw [if_neg (by rw [hw]; simp), if_neg (by rw [hsl]; decide),
      if_pos ⟨hsl, hc2⟩, hfind]
  · intro hc2 hfind
    unfold parse_word scan
    rw [if_neg (by rw [hw]; simp), if_neg (by rw [hsl]; decide),
      if_neg (by rintro ⟨h1, h2⟩; rw [hc2] at h2; exact absurd h2 (by decide)),
      if_pos ⟨hsl, hc2⟩, hfind]

theorem c4_witness :
    parseMain 3 "x //c\nz".data false false true lambda_zero [] 0 false false
        scan_init 2 2 =
      andThen (parse_word 1 "x //c\nz".data scan_init 2 2) (fun i2 st2 =>
        parseLoop 2 "x //c\nz".data false false true lambda_zero [] 0 false false
          st2 (i2 + 1) (i2 + 1)) ∧
    parse_word 1 "x //c\nz".data scan_init 2 2 = .ok (5, scan_init) := by
  have hc := c4_comments_inert_nonspecial 0 "x //c\nz".data false true lambda_zero []
    0 false false scan_init 2 2 5 (by decide) rfl
  exact ⟨hc.1, hc.2.1 rfl rfl⟩

/-- C9: when `generate_sliced` (hoisted-body emission) reaches a lambda
construct inside the span it is emitting, it replaces the whole construct by
the statement expression ` ({<type> lambda_<i><args>; &lambda_<i>; })` —
declaring the hoisted function locally before taking its address — and
resumes past the construct's closing brace, skipping nested table entries. -/
theorem c9_nested_statement_expression (src : List Char) (pos len : Nat)
    (ls : List lambda_t) (lam : Nat) (h : lam < ls.length) (hlen : len ≠ 0)
    (hst : ¬ (ls.get ⟨lam, h⟩).start > pos + len) :
    generate_sliced src pos len ls lam =
      src_slice src pos ((ls.get ⟨lam, h⟩).start - pos) ++ " (\x7b".data ++
      src_slice src (ls.get ⟨lam, h⟩).type.begin (ls.get ⟨lam, h⟩).type.length ++
      " lambda_".data ++ natChars lam ++
      src_slice src (ls.get ⟨lam, h⟩).args.begin (ls.get ⟨lam, h⟩).args.length ++
      "; &lambda_".data ++ natChars lam ++ "; \x7d)".data ++
      generate_sliced src
        (pos + ((ls.get ⟨lam, h⟩).body.begin + (ls.get ⟨lam, h⟩).body.length + 1 - pos))
        (len - ((ls.get ⟨lam, h⟩).body.begin + (ls.get ⟨lam, h⟩).body.length + 1 - pos))
        ls
        (skipNested ls (lam + 1)
          (pos + ((ls.get ⟨lam, h⟩).body.begin + (ls.get ⟨lam, h⟩).body.length + 1 - pos))) := by
  conv_lhs => rw [generate_sliced.eq_def]
  rw [if_neg hlen, dif_pos h, if_neg hst]

theorem c9_witness :
    generate_sliced "ab lambda int(int x) \x7b y; \x7d tail".data 0 31
        [⟨3, ⟨10, 3⟩, ⟨13, 7⟩, ⟨21, 6⟩, 1, 1, 1⟩] 0 =
      src_slice "ab lambda int(int x) \x7b y; \x7d tail".data 0 3 ++ " (\x7b".data ++
      src_slice "ab lambda int(int x) \x7b y; \x7d tail".data 10 3 ++
      " lambda_".data ++ natChars 0 ++
      src_slice "ab lambda int(int x) \x7b y; \x7d tail".data 13 7 ++
      "; &lambda_".data ++ natChars 0 ++ "; \x7d)".data ++
      generate_sliced "ab lambda int(int x) \x7b y; \x7d tail".data 28 3
        [⟨3, ⟨10, 3⟩, ⟨13, 7⟩, ⟨21, 6⟩, 1, 1, 1⟩]
        (skipNested [⟨3, ⟨10, 3⟩, ⟨13, 7⟩, ⟨21, 6⟩, 1, 1, 1⟩] 1 28) := by
  have hc := c9_nested_statement_expression "ab lambda int(int x) \x7b y; \x7d tail".data
    0 31 [⟨3, ⟨10, 3⟩, ⟨13, 7⟩, ⟨21, 6⟩, 1, 1, 1⟩] 0 (by decide) (by decide) (by decide)
  exact hc

theorem gc_loop_single_pos (src : List Char) (ls : List lambda_t) :
    ∀ d lam pos len proto, ls.length - lam ≤ d →
      gc_loop src ls [⟨0, 1⟩] pos len lam proto =
        spec_toplevel_rewrite src ls pos len lam := by
  intro d
  induction d with
  | zero =>
    intro lam pos len proto hd
    rw [gc_loop.eq_def, spec_toplevel_rewrite.eq_def]
    by_cases hl : len = 0
    · rw [if_pos hl, if_pos hl]
    · rw [if_neg hl, if_neg hl, dif_neg (by omega), dif_neg (by omega)]
  | succ d ih =>
    intro lam pos len proto hd
    rw [gc_loop.eq_def, spec_toplevel_rewrite.eq_def]
    by_cases hl : len = 0
    · rw [if_pos hl, if_pos hl]
    · rw [if_neg hl, if_neg hl]
      by_cases hlam : lam < ls.length
      · rw [dif_pos hlam, dif_pos hlam]
        by_cases hst : (ls.get ⟨lam, hlam⟩).start > pos + len
        · rw [if_pos hst, if_pos hst]
        · rw [if_neg hst, if_neg hst]
          have hins : gc_insert src ls [⟨0, 1⟩] pos len lam proto = ([], pos, len) := by
            unfold gc_insert
            by_cases hp : proto < 1
            · rw [dif_pos (by simpa using hp)]
              simp
            · rw [dif_neg (by simpa using hp)]
          simp only [hins]
          have hrec := ih (skipNested ls (lam + 1)
              (pos + ((ls.get ⟨lam, hlam⟩).body.begin +
                (ls.get ⟨lam, hlam⟩).body.length + 1 - pos)))
            (pos + ((ls.get ⟨lam, hlam⟩).body.begin +
              (ls.get ⟨lam, hlam⟩).body.length + 1 - pos))
            (len - ((ls.get ⟨lam, hlam⟩).body.begin +
              (ls.get ⟨lam, hlam⟩).body.length + 1 - pos))
            (next_prototype_position ls [⟨0, 1⟩]
              (skipNested ls (lam + 1)
                (pos + ((ls.get ⟨lam, hlam⟩).body.begin +
                  (ls.get ⟨lam, hlam⟩).body.length + 1 - pos))) proto)
            (by
              have := skipNested_ge ls (lam + 1)
                (pos + ((ls.get ⟨lam, hlam⟩).body.begin +
                  (ls.get ⟨lam, hlam⟩).body.length + 1 - pos))
              omega)
          simp only [] at hrec ⊢
          rw [hrec]
          simp
      · rw [dif_neg hlam, dif_neg hlam]

theorem generate_code_single_pos (src : List Char) (ls : List lambda_t) :
    generate_code src ls [⟨0, 1⟩] 0 src.length 0 =
      spec_toplevel_rewrite src ls 0 src.length 0 := by
  unfold generate_code
  exact gc_loop_single_pos src ls ls.length 0 0 src.length _ (by omega)

theorem generate_hoisted_cons (src : List Char) (ls : List lambda_t) (k : Nat)
    (hk : k < ls.length) :
    generate_hoisted src ls k =
      generate_begin src ls k ++ "\n#line ".data ++
      natChars (ls.get ⟨k, hk⟩).body_line ++ ['\n'] ++
      generate_sliced src (ls.get ⟨k, hk⟩).body.begin
        ((ls.get ⟨k, hk⟩).body.length + 1) ls (k + 1) ++
      generate_hoisted src ls (k + 1) := by
  conv_lhs => rw [generate_hoisted.eq_def]
  rw [dif_pos hk]

theorem generate_hoisted_decomp (src : List Char) (ls : List lambda_t) :
    ∀ d k N, (hN : N < ls.length) → k ≤ N → N - k ≤ d →
      ∃ pre post, generate_hoisted src ls k =
        pre ++ (generate_begin src ls N ++ "\n#line ".data ++
          natChars (ls.get ⟨N, hN⟩).body_line ++ ['\n'] ++
          generate_sliced src (ls.get ⟨N, hN⟩).body.begin
            ((ls.get ⟨N, hN⟩).body.length + 1) ls (N + 1)) ++ post := by
  intro d
  induction d with
  | zero =>
    intro k N hN hkN hd
    have hk : k = N := by omega
    subst hk
    refine ⟨[], generate_hoisted src ls (k + 1), ?_⟩
    rw [generate_hoisted_cons src ls k hN]
    simp [List.append_assoc]
  | succ d ih =>
    intro k N hN hkN hd
    by_cases hk : k = N
    · subst hk
      refine ⟨[], generate_hoisted src ls (k + 1), ?_⟩
      rw [generate_hoisted_cons src ls k hN]
      simp [List.append_assoc]
    · have hk1 : k < ls.length := by omega
      obtain ⟨pre, post, hp⟩ := ih (k + 1) N hN (by omega) (by omega)
      refine ⟨(generate_begin src ls k ++ "\n#line ".data ++
        natChars (ls.get ⟨k, hk1⟩).body_line ++ ['\n'] ++
        generate_sliced src (ls.get ⟨k, hk1⟩).body.begin
          ((ls.get ⟨k, hk1⟩).body.length + 1) ls (k + 1)) ++ pre, post, ?_⟩
      rw [generate_hoisted_cons src ls k hk1, hp]
      simp [List.append_assoc]

/-- C1: after the top-level code (the marker and the rewritten source), the
output contains, for each lambda `N` of the sorted table, its hoisted block:
a line marker for `type_line`, the qualifier `static`, the captured type
text, the name `lambda_N`, the captured argument text, a line marker for
`body_line`, and the body (emitted via `generate_sliced`, so nested lambdas
are rewritten too); and whenever the top-level emission loop of
`generate_code` reaches a lambda construct inside the span it is emitting —
for any position table and any loop state — it performs the pending
prototype insertion, emits the source verbatim only up to the construct's
`start`, replaces the whole construct by the reference `&lambda_N` (the next
byte emitted after it comes from past the closing body brace at
`body.begin + body.length`), and resumes after the construct, skipping the
nested table entries it contains. -/
theorem c1_hoisted_blocks_and_site_rewrite (file src : List Char)
    (ls : List lambda_t) (ps : List lambda_position_t) :
    (∀ N, (hN : N < ls.length) → ∃ pre post,
      generate_output file src ls ps =
        generate_marker file 1 ++ generate_code src ls ps 0 src.length 0 ++ pre ++
        ("\n#line ".data ++ natChars (ls.get ⟨N, hN⟩).type_line ++
          "\nstatic ".data ++
          src_slice src (ls.get ⟨N, hN⟩).type.begin (ls.get ⟨N, hN⟩).type.length ++
          " lambda_".data ++ natChars N ++
          src_slice src (ls.get ⟨N, hN⟩).args.begin (ls.get ⟨N, hN⟩).args.length ++
          "\n#line ".data ++ natChars (ls.get ⟨N, hN⟩).body_line ++ ['\n'] ++
          generate_sliced src (ls.get ⟨N, hN⟩).body.begin
            ((ls.get ⟨N, hN⟩).body.length + 1) ls (N + 1)) ++
        post ++ ['\n']) ∧
    (∀ pos len lam proto, (hlam : lam < ls.length) → len ≠ 0 →
      ¬ (ls.get ⟨lam, hlam⟩).start > pos + len →
      gc_loop src ls ps pos len lam proto =
        (gc_insert src ls ps pos len lam proto).1 ++
        src_slice src (gc_insert src ls ps pos len lam proto).2.1
          ((ls.get ⟨lam, hlam⟩).start -
            (gc_insert src ls ps pos len lam proto).2.1) ++
        "&lambda_".data ++ natChars lam ++
        gc_loop src ls ps
          ((gc_insert src ls ps pos len lam proto).2.1 +
            ((ls.get ⟨lam, hlam⟩).body.begin + (ls.get ⟨lam, hlam⟩).body.length +
              1 - (gc_insert src ls ps pos len lam proto).2.1))
          ((gc_insert src ls ps pos len lam proto).2.2 -
            ((ls.get ⟨lam, hlam⟩).body.begin + (ls.get ⟨lam, hlam⟩).body.length +
              1 - (gc_insert src ls ps pos len lam proto).2.1))
          (skipNested ls (lam + 1)
            ((gc_insert src ls ps pos len lam proto).2.1 +
              ((ls.get ⟨lam, hlam⟩).body.begin + (ls.get ⟨lam, hlam⟩).body.length +
                1 - (gc_insert src ls ps pos len lam proto).2.1)))
          (next_prototype_position ls ps
            (skipNested ls (lam + 1)
              ((gc_insert src ls ps pos len lam proto).2.1 +
                ((ls.get ⟨lam, hlam⟩).body.begin +
                  (ls.get ⟨lam, hlam⟩).body.length + 1 -
                  (gc_insert src ls ps pos len lam proto).2.1)))
            proto)) := by
  constructor
  · intro N hN
    obtain ⟨pre, post, hp⟩ :=
      generate_hoisted_decomp src ls N 0 N hN (by omega) (by omega)
    refine ⟨pre, post, ?_⟩
    have hgb : generate_begin src ls N =
        "\n#line ".data ++ natChars (ls.get ⟨N, hN⟩).type_line ++
        "\nstatic ".data ++
        src_slice src (ls.get ⟨N, hN⟩).type.begin (ls.get ⟨N, hN⟩).type.length ++
        " lambda_".data ++ natChars N ++
        src_slice src (ls.get ⟨N, hN⟩).args.begin (ls.get ⟨N, hN⟩).args.length := by
      unfold generate_begin
      rw [List.getD_eq_getElem ls default hN]
      rfl
    unfold generate_output
    rw [hp, hgb]
    simp [List.append_assoc]
  · intro pos len lam proto hlam hlen hst
    conv_lhs => rw [gc_loop.eq_def]
    rw [if_neg hlen, dif_pos hlam, if_neg hst]

/-- Witness for C1 at a concrete table with a multi-entry position table. -/
theorem c1_witness :
    (∃ pre post,
      generate_output "t.c".data "s".data
          [⟨0, ⟨0, 1⟩, ⟨1, 0⟩, ⟨1, 0⟩, 1, 1, 1⟩] [⟨0, 1⟩, ⟨2, 3⟩] =
        generate_marker "t.c".data 1 ++
        generate_code "s".data [⟨0, ⟨0, 1⟩, ⟨1, 0⟩, ⟨1, 0⟩, 1, 1, 1⟩]
          [⟨0, 1⟩, ⟨2, 3⟩] 0 ("s".data).length 0 ++ pre ++
        ("\n#line ".data ++ natChars 1 ++ "\nstatic ".data ++
          src_slice "s".data 0 1 ++ " lambda_".data ++ natChars 0 ++
          src_slice "s".data 1 0 ++ "\n#line ".data ++ natChars 1 ++ ['\n'] ++
          generate_sliced "s".data 1 1 [⟨0, ⟨0, 1⟩, ⟨1, 0⟩, ⟨1, 0⟩, 1, 1, 1⟩] 1) ++
        post ++ ['\n']) ∧
    gc_loop "s".data [⟨0, ⟨0, 1⟩, ⟨1, 0⟩, ⟨1, 0⟩, 1, 1, 1⟩]
        [⟨0, 1⟩, ⟨2, 3⟩] 0 1 0 1 =
      (gc_insert "s".data [⟨0, ⟨0, 1⟩, ⟨1, 0⟩, ⟨1, 0⟩, 1, 1, 1⟩]
        [⟨0, 1⟩, ⟨2, 3⟩] 0 1 0 1).1 ++
      src_slice "s".data
        (gc_insert "s".data [⟨0, ⟨0, 1⟩, ⟨1, 0⟩, ⟨1, 0⟩, 1, 1, 1⟩]
          [⟨0, 1⟩, ⟨2, 3⟩] 0 1 0 1).2.1
        (0 - (gc_insert "s".data [⟨0, ⟨0, 1⟩, ⟨1, 0⟩, ⟨1, 0⟩, 1, 1, 1⟩]
          [⟨0, 1⟩, ⟨2, 3⟩] 0 1 0 1).2.1) ++
      "&lambda_".data ++ natChars 0 ++
      gc_loop "s".data [⟨0, ⟨0, 1⟩, ⟨1, 0⟩, ⟨1, 0⟩, 1, 1, 1⟩] [⟨0, 1⟩, ⟨2, 3⟩]
        ((gc_insert "s".data [⟨0, ⟨0, 1⟩, ⟨1, 0⟩, ⟨1, 0⟩, 1, 1, 1⟩]
          [⟨0, 1⟩, ⟨2, 3⟩] 0 1 0 1).2.1 +
          (1 + 0 + 1 - (gc_insert "s".data [⟨0, ⟨0, 1⟩, ⟨1, 0⟩, ⟨1, 0⟩, 1, 1, 1⟩]
            [⟨0, 1⟩, ⟨2, 3⟩] 0 1 0 1).2.1))
        ((gc_insert "s".data [⟨0, ⟨0, 1⟩, ⟨1, 0⟩, ⟨1, 0⟩, 1, 1, 1⟩]
          [⟨0, 1⟩, ⟨2, 3⟩] 0 1 0 1).2.2 -
          (1 + 0 + 1 - (gc_insert "s".data [⟨0, ⟨0, 1⟩, ⟨1, 0⟩, ⟨1, 0⟩, 1, 1, 1⟩]
            [⟨0, 1⟩, ⟨2, 3⟩] 0 1 0 1).2.1))
        (skipNested [⟨0, ⟨0, 1⟩, ⟨1, 0⟩, ⟨1, 0⟩, 1, 1, 1⟩] 1
          ((gc_insert "s".data [⟨0, ⟨0, 1⟩, ⟨1, 0⟩, ⟨1, 0⟩, 1, 1, 1⟩]
            [⟨0, 1⟩, ⟨2, 3⟩] 0 1 0 1).2.1 +
            (1 + 0 + 1 - (gc_insert "s".data
              [⟨0, ⟨0, 1⟩, ⟨1, 0⟩, ⟨1, 0⟩, 1, 1, 1⟩]
              [⟨0, 1⟩, ⟨2, 3⟩] 0 1 0 1).2.1)))
        (next_prototype_position [⟨0, ⟨0, 1⟩, ⟨1, 0⟩, ⟨1, 0⟩, 1, 1, 1⟩]
          [⟨0, 1⟩, ⟨2, 3⟩]
          (skipNested [⟨0, ⟨0, 1⟩, ⟨1, 0⟩, ⟨1, 0⟩, 1, 1, 1⟩] 1
            ((gc_insert "s".data [⟨0, ⟨0, 1⟩, ⟨1, 0⟩, ⟨1, 0⟩, 1, 1, 1⟩]
              [⟨0, 1⟩, ⟨2, 3⟩] 0 1 0 1).2.1 +
              (1 + 0 + 1 - (gc_insert "s".data
                [⟨0, ⟨0, 1⟩, ⟨1, 0⟩, ⟨1, 0⟩, 1, 1, 1⟩]
                [⟨0, 1⟩, ⟨2, 3⟩] 0 1 0 1).2.1)))
          1) := by
  exact ⟨(c1_hoisted_blocks_and_site_rewrite "t.c".data "s".data
      [⟨0, ⟨0, 1⟩, ⟨1, 0⟩, ⟨1, 0⟩, 1, 1, 1⟩] [⟨0, 1⟩, ⟨2, 3⟩]).1 0 (by decide),
    (c1_hoisted_blocks_and_site_rewrite "t.c".data "s".data
      [⟨0, ⟨0, 1⟩, ⟨1, 0⟩, ⟨1, 0⟩, 1, 1, 1⟩] [⟨0, 1⟩, ⟨2, 3⟩]).2
      0 1 0 1 (by decide) (by decide) (by decide)⟩
